import Mathlib

/-!
# Shallow embedding of the Ready Trader Go autotrader core

This file embeds the quoting-and-inventory core of the repository
(`src/strategy/autotrader.cc`) into Lean 4 and proves properties of it.

Conventions of the embedding:
* C++ `unsigned long` values are modelled as `Nat`, with arithmetic reduced
  modulo `2^64` (`U64`) exactly where the C++ performs unsigned arithmetic
  (notably the subtractions `fillVolume - order.filledVolume` and
  `order.remainingVolume - remainingVolume`, which wrap on underflow).
* C++ signed `long` values (`mETFPosition`, `mETFOrderPositionSell`,
  `mETFOrderPositionBuy` and the order counters) are modelled as `Int`.
  Mixed signed/unsigned compound assignments such as
  `mETFPosition += isSellOrder ? -dFilled : dFilled` are performed by C++ in
  the unsigned domain and wrap; they are modelled with `wrap64`.
  Pure signed arithmetic (whose overflow would be undefined behaviour and is
  never reached at the small magnitudes of this program) is modelled as exact
  integer arithmetic.
* `std::map<unsigned long, Order>` is modelled as an association list ordered
  by insertion; since the trader's keys are the strictly increasing
  `mNextMessageId` values, insertion order coincides with the ascending key
  order in which `std::map` iterates.
* The handlers only ever read index 0 of the price/volume arrays, so book
  events carry the top-of-book entries `askPrice0`/`bidPrice0`.
-/

namespace AutoTrader

/-- `2^64`, the modulus of C++ `unsigned long` arithmetic on the target platform. -/
def U64 : Nat := 18446744073709551616

/-- Reduce an integer into the signed 64-bit range, as happens when a C++
unsigned 64-bit computation is stored back into a signed `long`. -/
def wrap64 (z : Int) : Int :=
  (z + 9223372036854775808) % 18446744073709551616 - 9223372036854775808

/-- C++ `unsigned long` subtraction `a - b`: wraps modulo `2^64`. -/
def usub (a b : Nat) : Nat := (a % U64 + (U64 - b % U64)) % U64

/-- Conversion of a C++ signed `long` to `unsigned long` (two's complement). -/
def intToU64 (z : Int) : Nat := (z % (U64 : Int)).toNat

/-- `constexpr int MARGIN_BASIS = 7;` -/
def MARGIN_BASIS : Int := 7

/-- `constexpr int MAX_ORDER_DEPTH = 5;` -/
def MAX_ORDER_DEPTH : Int := 5

/-- `constexpr int POSITION_LIMIT = 100;` -/
def POSITION_LIMIT : Int := 100

/-- `constexpr int TICK_SIZE_IN_CENTS = 100;` -/
def TICK_SIZE_IN_CENTS : Nat := 100

/-- Modelled from the spec: the protocol bound `MINIMUM_BID` comes from the
`ready_trader_go` header, which is not under `src/`; spec §6 only says prices
are clamped to a minimum representable bound.  We use the Ready Trader Go
protocol value 1; no claim depends on the exact number. -/
def MINIMUM_BID : Nat := 1

/-- Modelled from the spec: the protocol bound `MAXIMUM_ASK` comes from the
`ready_trader_go` header, which is not under `src/`; spec §6 only says prices
are clamped to a maximum representable bound.  We use the Ready Trader Go
protocol value `2^31 - 1`; the claims only need it to be a large constant. -/
def MAXIMUM_ASK : Nat := 2147483647

/-- `constexpr int MIN_BID_NEARST_TICK = (MINIMUM_BID + TICK_SIZE_IN_CENTS) / TICK_SIZE_IN_CENTS * TICK_SIZE_IN_CENTS;` -/
def MIN_BID_NEARST_TICK : Nat :=
  (MINIMUM_BID + TICK_SIZE_IN_CENTS) / TICK_SIZE_IN_CENTS * TICK_SIZE_IN_CENTS

/-- `constexpr int MAX_ASK_NEAREST_TICK = MAXIMUM_ASK / TICK_SIZE_IN_CENTS * TICK_SIZE_IN_CENTS;` -/
def MAX_ASK_NEAREST_TICK : Nat :=
  MAXIMUM_ASK / TICK_SIZE_IN_CENTS * TICK_SIZE_IN_CENTS

/-- The `Order` record tracked per resting order.  The field order
`price, remainingVolume, filledVolume, cancelling` matches the aggregate
initialisers in the source (`{ newAskPrice, (unsigned long) orderVolume, 0 }`
leaves a fresh order with `filledVolume = 0` and `cancelling = false`) and the
data-model listing in spec §3. -/
structure Order where
  price : Nat
  remainingVolume : Nat
  filledVolume : Nat
  cancelling : Bool
deriving Repr, DecidableEq

/-- `Order MIN_ORDER = { 0, 0, 0, false };` — sentinel for the sell-side scan. -/
def MIN_ORDER : Order := { price := 0, remainingVolume := 0, filledVolume := 0, cancelling := false }

/-- `Order MAX_ORDER = { MAXIMUM_ASK, 0, 0, false };` — sentinel for the buy-side scan. -/
def MAX_ORDER : Order := { price := MAXIMUM_ASK, remainingVolume := 0, filledVolume := 0, cancelling := false }

inductive Side where
  | buy
  | sell
deriving Repr, DecidableEq

inductive Instrument where
  | future
  | etf
deriving Repr, DecidableEq

/-- Outbound commands of the core (spec §6).  Insert orders always carry
lifespan `GOOD_FOR_DAY` in the source, so the lifespan argument is omitted.
The `volume` of an insert is the C++ conversion of the signed `orderVolume`
to the unsigned parameter of `SendInsertOrder`. -/
inductive Command where
  | insertOrder (id : Nat) (side : Side) (price : Nat) (volume : Nat)
  | cancelOrder (id : Nat)
  | hedgeOrder (id : Nat) (side : Side) (price : Nat) (volume : Nat)
deriving Repr, DecidableEq

/-- The mutable state of `AutoTrader`, with the member names of the source. -/
structure State where
  mAsks : List (Nat × Order)
  mBids : List (Nat × Order)
  mETFPosition : Int
  mETFOrderPositionSell : Int
  mETFOrderPositionBuy : Int
  mETFOrderAskCount : Int
  mETFOrderBidCount : Int
  mNextMessageId : Nat
  mOrderBookSequence : Nat
  mMarketMaxBid : Nat
  mMarketMinAsk : Nat
deriving Repr, DecidableEq

/-- Modelled from the spec: the class header `autotrader.h` with the member
initialisers is not under `src/`.  Spec §3 has the ledger and market view
start the session empty/zeroed, and spec §6 requires outbound order ids to be
non-zero and monotonically increasing, so `mNextMessageId` starts at 1. -/
def initState : State :=
  { mAsks := [], mBids := [], mETFPosition := 0,
    mETFOrderPositionSell := 0, mETFOrderPositionBuy := 0,
    mETFOrderAskCount := 0, mETFOrderBidCount := 0,
    mNextMessageId := 1, mOrderBookSequence := 0,
    mMarketMaxBid := 0, mMarketMinAsk := 0 }

/-- `mAsks.count(k)` / `mBids.count(k)` and `sideMap[k]` lookup. -/
def lookupOrder : List (Nat × Order) → Nat → Option Order
  | [], _ => none
  | (k, o) :: rest, key => if k = key then some o else lookupOrder rest key

/-- `sideMap.count(k) == 1` viewed as a boolean. -/
def containsOrder (m : List (Nat × Order)) (key : Nat) : Bool :=
  (lookupOrder m key).isSome

/-- In-place mutation of the entry at `key` (a `std::map` never moves an entry
when only its mapped value is written through a reference). -/
def setOrder (m : List (Nat × Order)) (key : Nat) (o : Order) : List (Nat × Order) :=
  m.map (fun p => if p.1 = key then (key, o) else p)

/-- `sideMap.erase(k)`.  A `std::map` holds each key at most once; on the
model's association lists this removes every entry carrying the key. -/
def eraseOrder (m : List (Nat × Order)) (key : Nat) : List (Nat × Order) :=
  m.filter (fun p => p.1 ≠ key)

/-- `order.cancelling = true` performed on the map entry at `key`. -/
def markCancelling (m : List (Nat × Order)) (key : Nat) : List (Nat × Order) :=
  m.map (fun p => if p.1 = key then (p.1, { p.2 with cancelling := true }) else p)

/-- ```
unsigned long MultiplyBasis(unsigned long n, long basis, bool ceil) {
    unsigned long d = 10000 + basis;
    return 100 * ((n * d)/1000000);
}
```
The `ceil` parameter is accepted but never read, exactly as in the source:
the division truncates, so the result is `n * (1 + basis/10000)` rounded
*down* to a multiple of 100. -/
def MultiplyBasis (n : Nat) (basis : Int) (ceil : Bool) : Nat :=
  let d : Nat := intToU64 (10000 + basis)
  100 * ((n * d) % U64 / 1000000)

/-- Result of one pass of the `for(auto& [orderId, order] : mAsks)` loop of
`RepriceSellOrders`: the rewritten map, the cancels sent, the running
worst-price (largest ask) candidate and the `askAlreadyExists` flag. -/
structure SellScan where
  mAsks : List (Nat × Order)
  cmds : List Command
  largestOrderId : Nat
  largestPrice : Nat
  askAlreadyExists : Bool
deriving Repr, DecidableEq

/-- The sell-side reconciliation loop (`autotrader.cc` lines 109–126),
threading the `largestOrder` sentinel state (`MIN_ORDER` has price 0, id 0)
through the iteration in map order. -/
def sellScanGo (newAskPrice : Nat) (lid lp : Nat) : List (Nat × Order) → SellScan
  | [] =>
    { mAsks := [], cmds := [], largestOrderId := lid, largestPrice := lp,
      askAlreadyExists := false }
  | (orderId, order) :: rest =>
    if order.cancelling then
      let r := sellScanGo newAskPrice lid lp rest
      { r with mAsks := (orderId, order) :: r.mAsks }
    else
      let ex : Bool := order.price == newAskPrice
      if order.price < newAskPrice then
        let r := sellScanGo newAskPrice lid lp rest
        { r with
            mAsks := (orderId, { order with cancelling := true }) :: r.mAsks,
            cmds := Command.cancelOrder orderId :: r.cmds,
            askAlreadyExists := ex || r.askAlreadyExists }
      else if lp ≤ order.price then
        let r := sellScanGo newAskPrice orderId order.price rest
        { r with
            mAsks := (orderId, order) :: r.mAsks,
            askAlreadyExists := ex || r.askAlreadyExists }
      else
        let r := sellScanGo newAskPrice lid lp rest
        { r with
            mAsks := (orderId, order) :: r.mAsks,
            askAlreadyExists := ex || r.askAlreadyExists }

/-- Result of the buy-side reconciliation loop, mirroring `SellScan`. -/
structure BuyScan where
  mBids : List (Nat × Order)
  cmds : List Command
  smallestOrderId : Nat
  smallestPrice : Nat
  bidAlreadyExists : Bool
deriving Repr, DecidableEq

/-- The buy-side reconciliation loop (`autotrader.cc` lines 159–176); the
`smallestOrder` sentinel `MAX_ORDER` has price `MAXIMUM_ASK`, id 0. -/
def buyScanGo (newBidPrice : Nat) (sid sp : Nat) : List (Nat × Order) → BuyScan
  | [] =>
    { mBids := [], cmds := [], smallestOrderId := sid, smallestPrice := sp,
      bidAlreadyExists := false }
  | (orderId, order) :: rest =>
    if order.cancelling then
      let r := buyScanGo newBidPrice sid sp rest
      { r with mBids := (orderId, order) :: r.mBids }
    else
      let ex : Bool := order.price == newBidPrice
      if newBidPrice < order.price then
        let r := buyScanGo newBidPrice sid sp rest
        { r with
            mBids := (orderId, { order with cancelling := true }) :: r.mBids,
            cmds := Command.cancelOrder orderId :: r.cmds,
            bidAlreadyExists := ex || r.bidAlreadyExists }
      else if order.price ≤ sp then
        let r := buyScanGo newBidPrice orderId order.price rest
        { r with
            mBids := (orderId, order) :: r.mBids,
            bidAlreadyExists := ex || r.bidAlreadyExists }
      else
        let r := buyScanGo newBidPrice sid sp rest
        { r with
            mBids := (orderId, order) :: r.mBids,
            bidAlreadyExists := ex || r.bidAlreadyExists }

/-- `AutoTrader::RepriceSellOrders` (`autotrader.cc` lines 104–152), with
`askPrice0 = askPrices[0]` (the only array entry the source reads). -/
def RepriceSellOrders (s : State) (askPrice0 : Nat) : State × List Command :=
  let newAskPrice : Nat :=
    if askPrice0 ≠ 0 then
      max ((s.mMarketMaxBid + 100) % U64) (MultiplyBasis askPrice0 MARGIN_BASIS true)
    else MAXIMUM_ASK
  let r := sellScanGo newAskPrice 0 0 s.mAsks
  let evict : Bool :=
    decide (r.largestOrderId ≠ 0) &&
    !((lookupOrder r.mAsks r.largestOrderId).getD MIN_ORDER).cancelling &&
    decide (s.mETFOrderAskCount ≥ MAX_ORDER_DEPTH - 1)
  let asks2 := if evict then markCancelling r.mAsks r.largestOrderId else r.mAsks
  let cmds2 := if evict then r.cmds ++ [Command.cancelOrder r.largestOrderId] else r.cmds
  let orderVolume : Int := Int.tdiv (s.mETFPosition + POSITION_LIMIT) MAX_ORDER_DEPTH
  if r.askAlreadyExists
      || decide (s.mETFPosition - s.mETFOrderPositionSell - orderVolume < -POSITION_LIMIT)
      || decide (s.mETFOrderAskCount ≥ MAX_ORDER_DEPTH)
      || askPrice0 == 0 then
    ({ s with mAsks := asks2 }, cmds2)
  else
    let orderId := s.mNextMessageId
    ({ s with
        mAsks := asks2 ++ [(orderId,
          { price := newAskPrice, remainingVolume := intToU64 orderVolume,
            filledVolume := 0, cancelling := false })],
        mNextMessageId := orderId + 1,
        mETFOrderAskCount := s.mETFOrderAskCount + 1,
        mETFOrderPositionSell := s.mETFOrderPositionSell + orderVolume },
      cmds2 ++ [Command.insertOrder orderId Side.sell newAskPrice (intToU64 orderVolume)])

/-- `AutoTrader::RepriceBuyOrders` (`autotrader.cc` lines 154–199).
`mMarketMinAsk - 100` is unsigned and wraps when `mMarketMinAsk < 100`. -/
def RepriceBuyOrders (s : State) (bidPrice0 : Nat) : State × List Command :=
  let newBidPrice : Nat :=
    if bidPrice0 ≠ 0 then
      min (usub s.mMarketMinAsk 100) (MultiplyBasis bidPrice0 (-MARGIN_BASIS) false)
    else 0
  let r := buyScanGo newBidPrice 0 MAXIMUM_ASK s.mBids
  let evict : Bool :=
    decide (r.smallestOrderId ≠ 0) &&
    !((lookupOrder r.mBids r.smallestOrderId).getD MAX_ORDER).cancelling &&
    decide (s.mETFOrderBidCount ≥ MAX_ORDER_DEPTH - 1)
  let bids2 := if evict then markCancelling r.mBids r.smallestOrderId else r.mBids
  let cmds2 := if evict then r.cmds ++ [Command.cancelOrder r.smallestOrderId] else r.cmds
  let orderVolume : Int := Int.tdiv (POSITION_LIMIT - s.mETFPosition) MAX_ORDER_DEPTH
  if r.bidAlreadyExists
      || decide (s.mETFPosition + s.mETFOrderPositionBuy + orderVolume > POSITION_LIMIT)
      || decide (s.mETFOrderBidCount ≥ MAX_ORDER_DEPTH)
      || bidPrice0 == 0 then
    ({ s with mBids := bids2 }, cmds2)
  else
    let orderId := s.mNextMessageId
    ({ s with
        mBids := bids2 ++ [(orderId,
          { price := newBidPrice, remainingVolume := intToU64 orderVolume,
            filledVolume := 0, cancelling := false })],
        mNextMessageId := orderId + 1,
        mETFOrderBidCount := s.mETFOrderBidCount + 1,
        mETFOrderPositionBuy := s.mETFOrderPositionBuy + orderVolume },
      cmds2 ++ [Command.insertOrder orderId Side.buy newBidPrice (intToU64 orderVolume)])

/-- `AutoTrader::OrderStatusMessageHandler` (`autotrader.cc` lines 208–255).
`fees` is received but never read.  `dFilled` and `dRemaining` are the
unsigned subtractions of the source and wrap on underflow; the compound
assignments back into the signed ledger fields wrap through `wrap64`. -/
def OrderStatusMessageHandler (s : State) (clientOrderId fillVolume remainingVolume : Nat)
    (fees : Int) : State × List Command :=
  let fillVolume := fillVolume % U64
  let remainingVolume := remainingVolume % U64
  let isSellOrder := containsOrder s.mAsks clientOrderId
  if !isSellOrder && !containsOrder s.mBids clientOrderId then (s, [])
  else
    let order :=
      (if isSellOrder then lookupOrder s.mAsks clientOrderId
       else lookupOrder s.mBids clientOrderId).getD MIN_ORDER
    let dFilled := usub fillVolume order.filledVolume
    let hedging : Int × Nat × List Command :=
      if dFilled > 0 then
        (wrap64 (s.mETFPosition +
           ((if isSellOrder then (U64 - dFilled) % U64 else dFilled : Nat) : Int)),
         s.mNextMessageId + 1,
         [Command.hedgeOrder s.mNextMessageId
            (if isSellOrder then Side.buy else Side.sell)
            (if isSellOrder then MAX_ASK_NEAREST_TICK else MIN_BID_NEARST_TICK)
            dFilled])
      else (s.mETFPosition, s.mNextMessageId, [])
    let dRemaining := usub order.remainingVolume remainingVolume
    let rsvSell :=
      if isSellOrder then wrap64 (s.mETFOrderPositionSell - (dRemaining : Int))
      else s.mETFOrderPositionSell
    let rsvBuy :=
      if isSellOrder then s.mETFOrderPositionBuy
      else wrap64 (s.mETFOrderPositionBuy - (dRemaining : Int))
    if remainingVolume > 0 then
      let order1 := { order with remainingVolume := remainingVolume, filledVolume := fillVolume }
      ({ s with
          mAsks := if isSellOrder then setOrder s.mAsks clientOrderId order1 else s.mAsks,
          mBids := if isSellOrder then s.mBids else setOrder s.mBids clientOrderId order1,
          mETFPosition := hedging.1,
          mETFOrderPositionSell := rsvSell,
          mETFOrderPositionBuy := rsvBuy,
          mNextMessageId := hedging.2.1 }, hedging.2.2)
    else
      ({ s with
          mAsks := if isSellOrder then eraseOrder s.mAsks clientOrderId else s.mAsks,
          mBids := if isSellOrder then s.mBids else eraseOrder s.mBids clientOrderId,
          mETFOrderAskCount := s.mETFOrderAskCount - (if isSellOrder then 1 else 0),
          mETFOrderBidCount := s.mETFOrderBidCount - (if isSellOrder then 0 else 1),
          mETFPosition := hedging.1,
          mETFOrderPositionSell := rsvSell,
          mETFOrderPositionBuy := rsvBuy,
          mNextMessageId := hedging.2.1 }, hedging.2.2)

/-- `AutoTrader::ErrorMessageHandler` (`autotrader.cc` lines 55–63): a tracked,
non-zero order id is driven through `OrderStatusMessageHandler(id, 0, 0, 0)`. -/
def ErrorMessageHandler (s : State) (clientOrderId : Nat) : State × List Command :=
  if clientOrderId ≠ 0 &&
      (containsOrder s.mAsks clientOrderId || containsOrder s.mBids clientOrderId) then
    OrderStatusMessageHandler s clientOrderId 0 0 0
  else (s, [])

/-- `AutoTrader::OrderBookMessageHandler` (`autotrader.cc` lines 73–102).
A non-`FUTURE` (ETF) book records the market top of book and returns; a
`FUTURE` book is sequence-checked and then drives both repricing passes. -/
def OrderBookMessageHandler (s : State) (instrument : Instrument)
    (sequenceNumber askPrice0 bidPrice0 : Nat) : State × List Command :=
  let sequenceNumber := sequenceNumber % U64
  let askPrice0 := askPrice0 % U64
  let bidPrice0 := bidPrice0 % U64
  if instrument ≠ Instrument.future then
    ({ s with
        mMarketMaxBid := bidPrice0,
        mMarketMinAsk := if askPrice0 ≠ 0 then askPrice0 else MAXIMUM_ASK }, [])
  else if sequenceNumber ≤ s.mOrderBookSequence then (s, [])
  else
    let s1 := { s with mOrderBookSequence := sequenceNumber }
    let r1 := RepriceSellOrders s1 askPrice0
    let r2 := RepriceBuyOrders r1.1 bidPrice0
    (r2.1, r1.2 ++ r2.2)

/-- Inbound events of the core (spec §6).  `tradeTicks` and `hedgeFilled`
only log in the source and are no-ops on the state. -/
inductive Event where
  | orderBook (instrument : Instrument) (sequenceNumber askPrice0 bidPrice0 : Nat)
  | orderStatus (clientOrderId fillVolume remainingVolume : Nat) (fees : Int)
  | orderError (clientOrderId : Nat)
  | tradeTicks
  | hedgeFilled
deriving Repr, DecidableEq

/-- Dispatch one inbound event to its handler. -/
def step (s : State) : Event → State × List Command
  | Event.orderBook instrument seq a b => OrderBookMessageHandler s instrument seq a b
  | Event.orderStatus id fill remaining fees => OrderStatusMessageHandler s id fill remaining fees
  | Event.orderError id => ErrorMessageHandler s id
  | Event.tradeTicks => (s, [])
  | Event.hedgeFilled => (s, [])

/-- Run a sequence of events from a state (spec §5: strictly serial delivery). -/
def runEvents : State → List Event → State
  | s, [] => s
  | s, e :: es => runEvents (step s e).1 es

/-! ## Well-formed event delivery -/

/-- The `(id, volume)` pairs of the insert commands in a command list; used to
record the volume each order was created with. -/
def insertVols (cmds : List Command) : List (Nat × Nat) :=
  cmds.filterMap (fun c =>
    match c with
    | Command.insertOrder id _ _ v => some (id, v)
    | _ => none)

/-- Volume recorded for an order id (0 when unknown). -/
def lookupVol : List (Nat × Nat) → Nat → Nat
  | [], _ => 0
  | (k, v) :: rest, key => if k = key then v else lookupVol rest key

/-- The well-formedness hypothesis of claim C1 exactly as that claim words it:
every status on a tracked order reports a `fillVolume` that is monotonically
non-decreasing (at least the fill currently recorded for the order) and never
more than the volume the order was inserted with; fields fit the wire type;
no error events occur.  The `vols` argument is the ghost table of inserted
volumes, grown from the emitted insert commands. -/
def claimWfC1 : State → List (Nat × Nat) → List Event → Bool
  | _, _, [] => true
  | s, vols, e :: es =>
    let ok : Bool :=
      match e with
      | Event.orderStatus id fill rem _ =>
        decide (fill < U64) && decide (rem < U64) &&
        (match (if containsOrder s.mAsks id then lookupOrder s.mAsks id
                else lookupOrder s.mBids id) with
         | some o => decide (o.filledVolume ≤ fill) && decide (fill ≤ lookupVol vols id)
         | none => true)
      | Event.orderError _ => false
      | _ => true
    ok && claimWfC1 (step s e).1 (vols ++ insertVols (step s e).2) es

/-- Well-formed delivery of a single event, relative to the current state:
a status on a tracked order reports a monotonically non-decreasing fill and a
`filledVolume + remainingVolume` total that never grows (an exchange fill
consumes at least as much remaining volume as it adds fill, and a cancel only
shrinks it further — this also bounds the fill by the order's volume); an
error event may only reference an order with no recorded fill (the error
path's unsigned `0 - filledVolume` underflows otherwise, see claim C6); all
fields fit the 64-bit wire types. -/
def wfEvent (s : State) (e : Event) : Bool :=
  match e with
  | Event.orderStatus id fill rem _ =>
    decide (fill < U64) && decide (rem < U64) &&
    (match (if containsOrder s.mAsks id then lookupOrder s.mAsks id
            else lookupOrder s.mBids id) with
     | some o =>
       decide (o.filledVolume ≤ fill) &&
       decide (fill + rem ≤ o.filledVolume + o.remainingVolume)
     | none => true)
  | Event.orderError id =>
    (match (if containsOrder s.mAsks id then lookupOrder s.mAsks id
            else lookupOrder s.mBids id) with
     | some o => decide (o.filledVolume = 0)
     | none => true)
  | _ => true

/-- Well-formed delivery of a whole event sequence from a state. -/
def wfTrace : State → List Event → Bool
  | _, [] => true
  | s, e :: es => wfEvent s e && wfTrace (step s e).1 es

/-! ## Per-order fill accounting (claim C2) -/

/-- Deliver a list of `(fillVolume, remainingVolume)` status reports for one
fixed order id, collecting all emitted commands. -/
def processStatuses (s : State) (id : Nat) : List (Nat × Nat) → State × List Command
  | [] => (s, [])
  | (fill, rem) :: rest =>
    let r := OrderStatusMessageHandler s id fill rem 0
    let r2 := processStatuses r.1 id rest
    (r2.1, r.2 ++ r2.2)

/-- Sum of the volumes of the hedge orders in a command list. -/
def hedgeVolSum : List Command → Nat
  | [] => 0
  | Command.hedgeOrder _ _ _ v :: rest => v + hedgeVolSum rest
  | _ :: rest => hedgeVolSum rest

/-- Status reports on one order, starting from recorded fill `f`, are well
formed when the reported fills are monotonically non-decreasing from `f`, fit
the wire type, and only the last report may be terminal (`remaining = 0`) —
after a terminal report the order no longer exists, so later reports would not
be "status updates on it". -/
def wfStatusList : Nat → List (Nat × Nat) → Bool
  | _, [] => true
  | f, (fill, rem) :: rest =>
    decide (f ≤ fill) && decide (fill < U64) && decide (rem < U64) &&
    (decide (0 < rem) || rest.isEmpty) && wfStatusList fill rest

/-- The last reported fill of a status list (`f` when the list is empty). -/
def finalFill (f : Nat) : List (Nat × Nat) → Nat
  | [] => f
  | (fill, _) :: rest => finalFill fill rest

/-- The hedge orders the fill-reconciliation contract prescribes for a
sequence of status reports on one order of the given side, starting from
recorded fill `f` with next client order id `nid`: one hedge per strict fill
increase, on the opposite side, priced at the extreme tick, sized exactly the
incremental fill. -/
def expectedHedges (isSell : Bool) : Nat → Nat → List (Nat × Nat) → List Command
  | _, _, [] => []
  | f, nid, (fill, _) :: rest =>
    if f < fill then
      Command.hedgeOrder nid (if isSell then Side.buy else Side.sell)
        (if isSell then MAX_ASK_NEAREST_TICK else MIN_BID_NEARST_TICK) (fill - f)
        :: expectedHedges isSell fill (nid + 1) rest
    else expectedHedges isSell fill nid rest

/-! ## Invariants -/

/-- The keys of a side mapping. -/
def keysOf (m : List (Nat × Order)) : List Nat := m.map Prod.fst

/-- Total remaining volume of the orders of a side mapping. -/
def sumRemaining (m : List (Nat × Order)) : Nat :=
  (m.map (fun p => p.2.remainingVolume)).sum

/-- Structural invariant maintained by every event (well formed or not): the
per-side counters equal the number of *tracked* orders of the side (including
ones flagged `cancelling`), they never exceed `MAX_ORDER_DEPTH`, and the maps
are genuine maps with fresh keys below `mNextMessageId`. -/
def InvCount (s : State) : Prop :=
  s.mETFOrderAskCount = s.mAsks.length ∧
  s.mETFOrderBidCount = s.mBids.length ∧
  s.mETFOrderAskCount ≤ MAX_ORDER_DEPTH ∧
  s.mETFOrderBidCount ≤ MAX_ORDER_DEPTH ∧
  (keysOf s.mAsks).Nodup ∧
  (keysOf s.mBids).Nodup ∧
  (∀ k ∈ keysOf s.mAsks, k < s.mNextMessageId) ∧
  (∀ k ∈ keysOf s.mBids, k < s.mNextMessageId) ∧
  1 ≤ s.mNextMessageId

/-- Ledger invariant maintained by well-formed event delivery: the reserved
volumes are exactly the outstanding remaining volumes per side, the position
net of reserved sell volume (resp. plus reserved buy volume) respects the
position limit, and every tracked order is small (its remaining volume is at
most `(POSITION_LIMIT + POSITION_LIMIT) / MAX_ORDER_DEPTH = 40`, the largest
insert the sizing formula can produce). -/
def InvPos (s : State) : Prop :=
  InvCount s ∧
  s.mETFOrderPositionSell = (sumRemaining s.mAsks : Int) ∧
  s.mETFOrderPositionBuy = (sumRemaining s.mBids : Int) ∧
  -POSITION_LIMIT ≤ s.mETFPosition - s.mETFOrderPositionSell ∧
  s.mETFPosition + s.mETFOrderPositionBuy ≤ POSITION_LIMIT ∧
  (∀ p ∈ s.mAsks, p.2.remainingVolume ≤ 40 ∧ p.2.filledVolume < U64) ∧
  (∀ p ∈ s.mBids, p.2.remainingVolume ≤ 40 ∧ p.2.filledVolume < U64)

/-! ## Concrete scenarios used by the claim theorems -/

/-- A delivery that satisfies claim C1's well-formedness hypothesis yet drives
`mETFPosition` to −116: each resting sell order's `remainingVolume` is first
under-reported as 1 lot (fills stay monotone and within each order's volume,
but `filled + remaining` jumps, which C1's hypothesis does not rule out), so
`mETFOrderPositionSell` no longer covers the volume that can still fill; the
orders then fill completely.  Order ids 1–5 and 7 are the six inserted sell
orders (id 6 is consumed by the hedge sent for the fill of order 1). -/
def traceC1 : List Event :=
  [ Event.orderBook Instrument.future 1 100000 0,
    Event.orderStatus 1 0 1 0,
    Event.orderBook Instrument.future 2 90000 0,
    Event.orderStatus 2 0 1 0,
    Event.orderBook Instrument.future 3 80000 0,
    Event.orderStatus 3 0 1 0,
    Event.orderBook Instrument.future 4 70000 0,
    Event.orderStatus 4 0 1 0,
    Event.orderBook Instrument.future 5 60000 0,
    Event.orderStatus 5 0 1 0,
    Event.orderStatus 1 20 0 0,
    Event.orderBook Instrument.future 6 50000 0,
    Event.orderStatus 2 20 0 0,
    Event.orderStatus 3 20 0 0,
    Event.orderStatus 4 20 0 0,
    Event.orderStatus 5 20 0 0,
    Event.orderStatus 7 16 0 0 ]

/-- Two fresh futures books: the first inserts a sell order at 100000, the
second reprices to 200100, cancelling (flagging, not yet removing) order 1 and
inserting order 2 — leaving `mETFOrderAskCount = 2` with only one
non-cancelling tracked ask. -/
def traceC9 : List Event :=
  [ Event.orderBook Instrument.future 1 100000 0,
    Event.orderBook Instrument.future 2 200000 0 ]

/-- A state tracking one unfilled resting sell order of 10 lots: the concrete
instance used to witness the fill-accounting claim C2. -/
def stateC2 : State :=
  { initState with
    mAsks := [(1, { price := 10100, remainingVolume := 10, filledVolume := 0,
                    cancelling := false })],
    mETFOrderAskCount := 1, mETFOrderPositionSell := 10, mNextMessageId := 2 }

/-- A fresh session that has just recorded an ETF best bid of 9900: the
concrete instance of the C5 pricing scenario. -/
def stateC5 : State := { initState with mMarketMaxBid := 9900 }

/-- A state tracking one partially filled sell order (4 lots filled, 6
remaining) at a net position of −4: the failing input of claim C6. -/
def stateC6 : State :=
  { initState with
    mAsks := [(1, { price := 10100, remainingVolume := 6, filledVolume := 4,
                    cancelling := false })],
    mETFOrderAskCount := 1, mETFOrderPositionSell := 6,
    mETFPosition := -4, mNextMessageId := 2 }

/-! ## Arithmetic lemmas -/

theorem usub_of_le {a b : Nat} (hb : b ≤ a) (ha : a < U64) : usub a b = a - b := by
  unfold usub U64 at *
  omega

theorem wrap64_eq_self {z : Int} (h1 : -9223372036854775808 ≤ z)
    (h2 : z < 9223372036854775808) : wrap64 z = z := by
  unfold wrap64
  omega

theorem wrap64_add_u64 (z : Int) : wrap64 (z + 18446744073709551616) = wrap64 z := by
  unfold wrap64
  omega

theorem intToU64_cast {z : Int} (h0 : 0 ≤ z) (h1 : z < 18446744073709551616) :
    (intToU64 z : Int) = z := by
  unfold intToU64 U64
  omega

/-! ## Association-list lemmas -/

theorem keysOf_nil : keysOf [] = [] := rfl

theorem keysOf_cons (a : Nat) (b : Order) (rest : List (Nat × Order)) :
    keysOf ((a, b) :: rest) = a :: keysOf rest := rfl

theorem lookupOrder_cons_self (a : Nat) (b : Order) (rest : List (Nat × Order)) :
    lookupOrder ((a, b) :: rest) a = some b := by
  simp [lookupOrder]

theorem lookupOrder_cons_ne {a k : Nat} (hk : a ≠ k) (b : Order)
    (rest : List (Nat × Order)) :
    lookupOrder ((a, b) :: rest) k = lookupOrder rest k := by
  simp [lookupOrder, hk]

theorem setOrder_cons_self (a : Nat) (b o : Order) (rest : List (Nat × Order)) :
    setOrder ((a, b) :: rest) a o = (a, o) :: setOrder rest a o := by
  simp [setOrder]

theorem setOrder_cons_ne {a k : Nat} (hk : a ≠ k) (b : Order) (o : Order)
    (rest : List (Nat × Order)) :
    setOrder ((a, b) :: rest) k o = (a, b) :: setOrder rest k o := by
  simp [setOrder, hk]

theorem eraseOrder_cons_self (a : Nat) (b : Order) (rest : List (Nat × Order)) :
    eraseOrder ((a, b) :: rest) a = eraseOrder rest a := by
  simp [eraseOrder]

theorem eraseOrder_cons_ne {a k : Nat} (hk : a ≠ k) (b : Order)
    (rest : List (Nat × Order)) :
    eraseOrder ((a, b) :: rest) k = (a, b) :: eraseOrder rest k := by
  simp [eraseOrder, hk]

theorem lookupOrder_mem {m : List (Nat × Order)} {k : Nat} {o : Order}
    (h : lookupOrder m k = some o) : (k, o) ∈ m := by
  induction m with
  | nil => simp [lookupOrder] at h
  | cons p rest ih =>
    obtain ⟨a, b⟩ := p
    by_cases hk : a = k
    · subst hk
      rw [lookupOrder_cons_self] at h
      cases h
      exact List.mem_cons_self _ _
    · rw [lookupOrder_cons_ne hk] at h
      exact List.mem_cons_of_mem _ (ih h)

theorem lookupOrder_eq_none {m : List (Nat × Order)} {k : Nat} :
    lookupOrder m k = none ↔ k ∉ keysOf m := by
  induction m with
  | nil => simp [lookupOrder, keysOf]
  | cons p rest ih =>
    obtain ⟨a, b⟩ := p
    by_cases hk : a = k
    · subst hk
      simp [lookupOrder_cons_self, keysOf_cons]
    · rw [lookupOrder_cons_ne hk, keysOf_cons]
      simp only [List.mem_cons, not_or]
      constructor
      · intro hn
        exact ⟨fun hc => hk hc.symm, ih.mp hn⟩
      · intro hn
        exact ih.mpr hn.2

theorem lookupOrder_isSome_of_mem {m : List (Nat × Order)} {k : Nat}
    (h : k ∈ keysOf m) : (lookupOrder m k).isSome := by
  cases hl : lookupOrder m k with
  | none => exact absurd (lookupOrder_eq_none.mp hl) (not_not_intro h)
  | some o => rfl

theorem keysOf_append (m l : List (Nat × Order)) :
    keysOf (m ++ l) = keysOf m ++ keysOf l := by
  simp [keysOf]

theorem sumRemaining_nil : sumRemaining [] = 0 := rfl

theorem sumRemaining_cons (p : Nat × Order) (m : List (Nat × Order)) :
    sumRemaining (p :: m) = p.2.remainingVolume + sumRemaining m := by
  simp [sumRemaining]

theorem sumRemaining_append (m l : List (Nat × Order)) :
    sumRemaining (m ++ l) = sumRemaining m + sumRemaining l := by
  simp [sumRemaining]

theorem sumRemaining_le_of_bounded {m : List (Nat × Order)}
    (h : ∀ p ∈ m, p.2.remainingVolume ≤ 40) :
    sumRemaining m ≤ 40 * m.length := by
  induction m with
  | nil => simp [sumRemaining]
  | cons p rest ih =>
    rw [sumRemaining_cons]
    have h1 := h p (List.mem_cons_self _ _)
    have h2 := ih (fun q hq => h q (List.mem_cons_of_mem _ hq))
    simp only [List.length_cons]
    omega

theorem setOrder_of_not_mem {m : List (Nat × Order)} {k : Nat} (o : Order)
    (h : k ∉ keysOf m) : setOrder m k o = m := by
  induction m with
  | nil => rfl
  | cons p rest ih =>
    obtain ⟨a, b⟩ := p
    rw [keysOf_cons] at h
    simp only [List.mem_cons, not_or] at h
    have hne : a ≠ k := fun hc => h.1 hc.symm
    rw [setOrder_cons_ne hne, ih h.2]

theorem eraseOrder_of_not_mem {m : List (Nat × Order)} {k : Nat}
    (h : k ∉ keysOf m) : eraseOrder m k = m := by
  induction m with
  | nil => rfl
  | cons p rest ih =>
    obtain ⟨a, b⟩ := p
    rw [keysOf_cons] at h
    simp only [List.mem_cons, not_or] at h
    have hne : a ≠ k := fun hc => h.1 hc.symm
    rw [eraseOrder_cons_ne hne, ih h.2]

theorem keysOf_setOrder (m : List (Nat × Order)) (k : Nat) (o : Order) :
    keysOf (setOrder m k o) = keysOf m := by
  induction m with
  | nil => rfl
  | cons p rest ih =>
    obtain ⟨a, b⟩ := p
    by_cases hk : a = k
    · subst hk
      rw [setOrder_cons_self, keysOf_cons, keysOf_cons, ih]
    · rw [setOrder_cons_ne hk, keysOf_cons, keysOf_cons, ih]

theorem length_setOrder (m : List (Nat × Order)) (k : Nat) (o : Order) :
    (setOrder m k o).length = m.length := by
  simp [setOrder]

theorem mem_setOrder {m : List (Nat × Order)} {k : Nat} {o : Order} {q : Nat × Order}
    (h : q ∈ setOrder m k o) : q = (k, o) ∨ q ∈ m := by
  simp only [setOrder, List.mem_map] at h
  obtain ⟨p, hp, heq⟩ := h
  by_cases hk : p.1 = k
  · rw [if_pos hk] at heq
    exact Or.inl heq.symm
  · rw [if_neg hk] at heq
    exact Or.inr (heq ▸ hp)

theorem lookupOrder_setOrder_self {m : List (Nat × Order)} {k : Nat} {o : Order}
    (h : (lookupOrder m k).isSome) :
    lookupOrder (setOrder m k o) k = some o := by
  induction m with
  | nil => simp [lookupOrder] at h
  | cons p rest ih =>
    obtain ⟨a, b⟩ := p
    by_cases hk : a = k
    · subst hk
      rw [setOrder_cons_self, lookupOrder_cons_self]
    · rw [lookupOrder_cons_ne hk] at h
      rw [setOrder_cons_ne hk, lookupOrder_cons_ne hk]
      exact ih h

theorem lookupOrder_setOrder_ne {m : List (Nat × Order)} {k j : Nat} {o : Order}
    (h : j ≠ k) : lookupOrder (setOrder m k o) j = lookupOrder m j := by
  induction m with
  | nil => rfl
  | cons p rest ih =>
    obtain ⟨a, b⟩ := p
    by_cases hk : a = k
    · subst hk
      rw [setOrder_cons_self, lookupOrder_cons_ne (Ne.symm h),
        lookupOrder_cons_ne (fun hc => h hc.symm) b, ih]
    · by_cases haj : a = j
      · subst haj
        rw [setOrder_cons_ne hk, lookupOrder_cons_self, lookupOrder_cons_self]
      · rw [setOrder_cons_ne hk, lookupOrder_cons_ne haj, lookupOrder_cons_ne haj, ih]

theorem setOrder_sum {m : List (Nat × Order)} {k : Nat} {o old : Order}
    (h : lookupOrder m k = some old) (hnd : (keysOf m).Nodup) :
    sumRemaining (setOrder m k o) + old.remainingVolume
      = sumRemaining m + o.remainingVolume := by
  induction m with
  | nil => simp [lookupOrder] at h
  | cons p rest ih =>
    obtain ⟨a, b⟩ := p
    rw [keysOf_cons] at hnd
    simp only [List.nodup_cons] at hnd
    by_cases hk : a = k
    · subst hk
      rw [lookupOrder_cons_self] at h
      cases h
      rw [setOrder_cons_self, setOrder_of_not_mem o hnd.1, sumRemaining_cons,
        sumRemaining_cons]
      dsimp only
      omega
    · rw [lookupOrder_cons_ne hk] at h
      have := ih h hnd.2
      rw [setOrder_cons_ne hk, sumRemaining_cons, sumRemaining_cons]
      omega

theorem lookupOrder_eraseOrder_self (m : List (Nat × Order)) (k : Nat) :
    lookupOrder (eraseOrder m k) k = none := by
  rw [lookupOrder_eq_none]
  intro h
  simp only [keysOf, List.mem_map] at h
  obtain ⟨p, hp, heq⟩ := h
  have := List.of_mem_filter hp
  simp only [heq, decide_eq_true_eq] at this
  exact this rfl

theorem mem_eraseOrder {m : List (Nat × Order)} {k : Nat} {q : Nat × Order}
    (h : q ∈ eraseOrder m k) : q ∈ m :=
  List.mem_of_mem_filter h

theorem keysOf_eraseOrder_sub {m : List (Nat × Order)} {k j : Nat}
    (h : j ∈ keysOf (eraseOrder m k)) : j ∈ keysOf m := by
  simp only [keysOf, List.mem_map] at h ⊢
  obtain ⟨p, hp, heq⟩ := h
  exact ⟨p, mem_eraseOrder hp, heq⟩

theorem nodup_keysOf_eraseOrder {m : List (Nat × Order)} {k : Nat}
    (h : (keysOf m).Nodup) : (keysOf (eraseOrder m k)).Nodup := by
  induction m with
  | nil => simp [eraseOrder, keysOf]
  | cons p rest ih =>
    obtain ⟨a, b⟩ := p
    rw [keysOf_cons] at h
    simp only [List.nodup_cons] at h
    by_cases hk : a = k
    · subst hk
      rw [eraseOrder_cons_self]
      exact ih h.2
    · rw [eraseOrder_cons_ne hk, keysOf_cons]
      simp only [List.nodup_cons]
      exact ⟨fun hc => h.1 (keysOf_eraseOrder_sub hc), ih h.2⟩

theorem eraseOrder_length {m : List (Nat × Order)} {k : Nat} {old : Order}
    (h : lookupOrder m k = some old) (hnd : (keysOf m).Nodup) :
    (eraseOrder m k).length + 1 = m.length := by
  induction m with
  | nil => simp [lookupOrder] at h
  | cons p rest ih =>
    obtain ⟨a, b⟩ := p
    rw [keysOf_cons] at hnd
    simp only [List.nodup_cons] at hnd
    by_cases hk : a = k
    · subst hk
      rw [eraseOrder_cons_self, eraseOrder_of_not_mem hnd.1, List.length_cons]
    · rw [lookupOrder_cons_ne hk] at h
      have := ih h hnd.2
      rw [eraseOrder_cons_ne hk, List.length_cons, List.length_cons]
      omega

theorem eraseOrder_sum {m : List (Nat × Order)} {k : Nat} {old : Order}
    (h : lookupOrder m k = some old) (hnd : (keysOf m).Nodup) :
    sumRemaining (eraseOrder m k) + old.remainingVolume = sumRemaining m := by
  induction m with
  | nil => simp [lookupOrder] at h
  | cons p rest ih =>
    obtain ⟨a, b⟩ := p
    rw [keysOf_cons] at hnd
    simp only [List.nodup_cons] at hnd
    by_cases hk : a = k
    · subst hk
      rw [lookupOrder_cons_self] at h
      cases h
      rw [eraseOrder_cons_self, eraseOrder_of_not_mem hnd.1, sumRemaining_cons]
      dsimp only
      omega
    · rw [lookupOrder_cons_ne hk] at h
      have := ih h hnd.2
      rw [eraseOrder_cons_ne hk, sumRemaining_cons, sumRemaining_cons]
      omega

theorem mem_filledBound_setOrder {m : List (Nat × Order)} {k : Nat} {o : Order}
    (hm : ∀ p ∈ m, p.2.remainingVolume ≤ 40 ∧ p.2.filledVolume < U64)
    (ho : o.remainingVolume ≤ 40 ∧ o.filledVolume < U64) :
    ∀ p ∈ setOrder m k o, p.2.remainingVolume ≤ 40 ∧ p.2.filledVolume < U64 := by
  intro p hp
  rcases mem_setOrder hp with h | h
  · rw [h]; exact ho
  · exact hm p h

/-! ## Reconciliation-loop characterizations -/

/-- The sell-side loop rewrites the map pointwise: a non-cancelling order
strictly below the target is flagged `cancelling`; everything else is kept
unchanged.  The worst-price tracking does not touch the map. -/
theorem sellScanGo_mAsks (t : Nat) (m : List (Nat × Order)) : ∀ lid lp,
    (sellScanGo t lid lp m).mAsks =
      m.map (fun p => if p.2.cancelling = false ∧ p.2.price < t
                      then (p.1, { p.2 with cancelling := true }) else p) := by
  induction m with
  | nil => intro lid lp; rfl
  | cons p rest ih =>
    intro lid lp
    obtain ⟨a, b⟩ := p
    by_cases hc : b.cancelling = true
    · simp [sellScanGo, hc, ih]
    · simp only [Bool.not_eq_true] at hc
      by_cases hp : b.price < t
      · simp [sellScanGo, hc, hp, ih]
      · by_cases hl : lp ≤ b.price
        · simp [sellScanGo, hc, hp, hl, ih]
        · simp [sellScanGo, hc, hp, hl, ih]

/-- The sell-side loop emits exactly one cancel for each non-cancelling order
strictly below the target, in map order, and nothing else. -/
theorem sellScanGo_cmds (t : Nat) (m : List (Nat × Order)) : ∀ lid lp,
    (sellScanGo t lid lp m).cmds =
      m.filterMap (fun p => if p.2.cancelling = false ∧ p.2.price < t
                            then some (Command.cancelOrder p.1) else none) := by
  induction m with
  | nil => intro lid lp; rfl
  | cons p rest ih =>
    intro lid lp
    obtain ⟨a, b⟩ := p
    by_cases hc : b.cancelling = true
    · simp [sellScanGo, hc, ih]
    · simp only [Bool.not_eq_true] at hc
      by_cases hp : b.price < t
      · simp [sellScanGo, hc, hp, ih]
      · by_cases hl : lp ≤ b.price
        · simp [sellScanGo, hc, hp, hl, ih]
        · simp [sellScanGo, hc, hp, hl, ih]

/-- The buy-side loop rewrites the map pointwise: a non-cancelling order
strictly above the target is flagged `cancelling`. -/
theorem buyScanGo_mBids (t : Nat) (m : List (Nat × Order)) : ∀ sid sp,
    (buyScanGo t sid sp m).mBids =
      m.map (fun p => if p.2.cancelling = false ∧ t < p.2.price
                      then (p.1, { p.2 with cancelling := true }) else p) := by
  induction m with
  | nil => intro sid sp; rfl
  | cons p rest ih =>
    intro sid sp
    obtain ⟨a, b⟩ := p
    by_cases hc : b.cancelling = true
    · simp [buyScanGo, hc, ih]
    · simp only [Bool.not_eq_true] at hc
      by_cases hp : t < b.price
      · simp [buyScanGo, hc, hp, ih]
      · by_cases hl : b.price ≤ sp
        · simp [buyScanGo, hc, hp, hl, ih]
        · simp [buyScanGo, hc, hp, hl, ih]

/-- The buy-side loop emits exactly one cancel for each non-cancelling order
strictly above the target, in map order, and nothing else. -/
theorem buyScanGo_cmds (t : Nat) (m : List (Nat × Order)) : ∀ sid sp,
    (buyScanGo t sid sp m).cmds =
      m.filterMap (fun p => if p.2.cancelling = false ∧ t < p.2.price
                            then some (Command.cancelOrder p.1) else none) := by
  induction m with
  | nil => intro sid sp; rfl
  | cons p rest ih =>
    intro sid sp
    obtain ⟨a, b⟩ := p
    by_cases hc : b.cancelling = true
    · simp [buyScanGo, hc, ih]
    · simp only [Bool.not_eq_true] at hc
      by_cases hp : t < b.price
      · simp [buyScanGo, hc, hp, ih]
      · by_cases hl : b.price ≤ sp
        · simp [buyScanGo, hc, hp, hl, ih]
        · simp [buyScanGo, hc, hp, hl, ih]

/-! ## Preservation facts for flag-only rewrites -/

theorem keysOf_map_keyfix {m : List (Nat × Order)} {f : Nat × Order → Nat × Order}
    (hf : ∀ p, (f p).1 = p.1) : keysOf (m.map f) = keysOf m := by
  induction m with
  | nil => rfl
  | cons p rest ih =>
    simp only [List.map_cons, keysOf, List.map] at ih ⊢
    rw [hf p]
    exact congrArg _ ih

theorem length_map_keyfix (m : List (Nat × Order)) (f : Nat × Order → Nat × Order) :
    (m.map f).length = m.length := by
  simp

theorem sumRemaining_map_volfix {m : List (Nat × Order)} {f : Nat × Order → Nat × Order}
    (hf : ∀ p, (f p).2.remainingVolume = p.2.remainingVolume) :
    sumRemaining (m.map f) = sumRemaining m := by
  induction m with
  | nil => rfl
  | cons p rest ih =>
    simp only [List.map_cons, sumRemaining_cons, ih, hf p]

theorem orderBound_map_volfix {m : List (Nat × Order)} {f : Nat × Order → Nat × Order}
    (hf : ∀ p, (f p).2.remainingVolume = p.2.remainingVolume ∧
               (f p).2.filledVolume = p.2.filledVolume)
    (hm : ∀ p ∈ m, p.2.remainingVolume ≤ 40 ∧ p.2.filledVolume < U64) :
    ∀ p ∈ m.map f, p.2.remainingVolume ≤ 40 ∧ p.2.filledVolume < U64 := by
  intro p hp
  obtain ⟨q, hq, rfl⟩ := List.mem_map.mp hp
  rw [(hf q).1, (hf q).2]
  exact hm q hq

/-- The pointwise rewrite of the sell loop fixes keys and volumes. -/
theorem sellMark_keyfix (t : Nat) :
    ∀ p : Nat × Order,
      ((if p.2.cancelling = false ∧ p.2.price < t
        then (p.1, { p.2 with cancelling := true }) else p)).1 = p.1 := by
  intro p
  split
  · rfl
  · rfl

theorem sellMark_volfix (t : Nat) :
    ∀ p : Nat × Order,
      ((if p.2.cancelling = false ∧ p.2.price < t
        then (p.1, { p.2 with cancelling := true }) else p)).2.remainingVolume
          = p.2.remainingVolume ∧
      ((if p.2.cancelling = false ∧ p.2.price < t
        then (p.1, { p.2 with cancelling := true }) else p)).2.filledVolume
          = p.2.filledVolume := by
  intro p
  constructor
  · split
    · rfl
    · rfl
  · split
    · rfl
    · rfl

theorem buyMark_keyfix (t : Nat) :
    ∀ p : Nat × Order,
      ((if p.2.cancelling = false ∧ t < p.2.price
        then (p.1, { p.2 with cancelling := true }) else p)).1 = p.1 := by
  intro p
  split
  · rfl
  · rfl

theorem buyMark_volfix (t : Nat) :
    ∀ p : Nat × Order,
      ((if p.2.cancelling = false ∧ t < p.2.price
        then (p.1, { p.2 with cancelling := true }) else p)).2.remainingVolume
          = p.2.remainingVolume ∧
      ((if p.2.cancelling = false ∧ t < p.2.price
        then (p.1, { p.2 with cancelling := true }) else p)).2.filledVolume
          = p.2.filledVolume := by
  intro p
  constructor
  · split
    · rfl
    · rfl
  · split
    · rfl
    · rfl

theorem markCancelling_keyfix (k : Nat) :
    ∀ p : Nat × Order,
      ((if p.1 = k then (p.1, { p.2 with cancelling := true }) else p)).1 = p.1 := by
  intro p
  split
  · rfl
  · rfl

theorem markCancelling_volfix (k : Nat) :
    ∀ p : Nat × Order,
      ((if p.1 = k then (p.1, { p.2 with cancelling := true }) else p)).2.remainingVolume
        = p.2.remainingVolume ∧
      ((if p.1 = k then (p.1, { p.2 with cancelling := true }) else p)).2.filledVolume
        = p.2.filledVolume := by
  intro p
  constructor
  · split
    · rfl
    · rfl
  · split
    · rfl
    · rfl

/-- Keys, length, remaining-volume sum and per-order volume bounds survive the
optional depth-eviction flagging. -/
theorem condMark_facts (e : Bool) (m : List (Nat × Order)) (k : Nat) :
    keysOf (if e then markCancelling m k else m) = keysOf m ∧
    (if e then markCancelling m k else m).length = m.length ∧
    sumRemaining (if e then markCancelling m k else m) = sumRemaining m := by
  cases e with
  | false => simp
  | true =>
    simp only [if_true]
    exact ⟨keysOf_map_keyfix (markCancelling_keyfix k),
      length_map_keyfix m _,
      sumRemaining_map_volfix (fun p => (markCancelling_volfix k p).1)⟩

theorem condMark_bounds (e : Bool) (m : List (Nat × Order)) (k : Nat)
    (hm : ∀ p ∈ m, p.2.remainingVolume ≤ 40 ∧ p.2.filledVolume < U64) :
    ∀ p ∈ (if e then markCancelling m k else m),
      p.2.remainingVolume ≤ 40 ∧ p.2.filledVolume < U64 := by
  cases e with
  | false => simpa using hm
  | true =>
    simp only [if_true]
    exact orderBound_map_volfix (markCancelling_volfix k) hm

/-! ## Repricing-pass preservation -/

theorem RepriceSell_fields (s : State) (a : Nat) :
    (RepriceSellOrders s a).1.mBids = s.mBids ∧
    (RepriceSellOrders s a).1.mETFPosition = s.mETFPosition ∧
    (RepriceSellOrders s a).1.mETFOrderPositionBuy = s.mETFOrderPositionBuy ∧
    (RepriceSellOrders s a).1.mETFOrderBidCount = s.mETFOrderBidCount ∧
    (RepriceSellOrders s a).1.mOrderBookSequence = s.mOrderBookSequence ∧
    s.mNextMessageId ≤ (RepriceSellOrders s a).1.mNextMessageId := by
  simp only [RepriceSellOrders]
  repeat' split
  all_goals refine ⟨rfl, rfl, rfl, rfl, rfl, ?_⟩
  all_goals dsimp only
  all_goals omega

theorem RepriceBuy_fields (s : State) (b : Nat) :
    (RepriceBuyOrders s b).1.mAsks = s.mAsks ∧
    (RepriceBuyOrders s b).1.mETFPosition = s.mETFPosition ∧
    (RepriceBuyOrders s b).1.mETFOrderPositionSell = s.mETFOrderPositionSell ∧
    (RepriceBuyOrders s b).1.mETFOrderAskCount = s.mETFOrderAskCount ∧
    (RepriceBuyOrders s b).1.mOrderBookSequence = s.mOrderBookSequence ∧
    s.mNextMessageId ≤ (RepriceBuyOrders s b).1.mNextMessageId := by
  simp only [RepriceBuyOrders]
  repeat' split
  all_goals refine ⟨rfl, rfl, rfl, rfl, rfl, ?_⟩
  all_goals dsimp only
  all_goals omega

theorem RepriceSell_invCount {s : State} (a : Nat) (h : InvCount s) :
    InvCount (RepriceSellOrders s a).1 := by
  obtain ⟨hca, hcb, hla, hlb, hna, hnb, hka, hkb, hid⟩ := h
  simp only [RepriceSellOrders]
  set t : Nat := (if a ≠ 0 then
      max ((s.mMarketMaxBid + 100) % U64) (MultiplyBasis a MARGIN_BASIS true)
    else MAXIMUM_ASK) with ht
  have hscanK : keysOf (sellScanGo t 0 0 s.mAsks).mAsks = keysOf s.mAsks := by
    rw [sellScanGo_mAsks]
    exact keysOf_map_keyfix (sellMark_keyfix _)
  have hscanL : (sellScanGo t 0 0 s.mAsks).mAsks.length = s.mAsks.length := by
    rw [sellScanGo_mAsks]
    exact length_map_keyfix _ _
  split
  case isTrue hguard =>
    obtain ⟨hK, hL, _⟩ := condMark_facts
      ((decide ((sellScanGo t 0 0 s.mAsks).largestOrderId ≠ 0) &&
        !((lookupOrder (sellScanGo t 0 0 s.mAsks).mAsks
             (sellScanGo t 0 0 s.mAsks).largestOrderId).getD MIN_ORDER).cancelling &&
        decide (s.mETFOrderAskCount ≥ MAX_ORDER_DEPTH - 1)))
      (sellScanGo t 0 0 s.mAsks).mAsks (sellScanGo t 0 0 s.mAsks).largestOrderId
    refine ⟨?_, hcb, ?_, hlb, ?_, hnb, ?_, hkb, hid⟩
    · dsimp only
      rw [hL, hscanL]
      exact hca
    · exact hla
    · dsimp only
      rw [hK, hscanK]
      exact hna
    · dsimp only
      rw [hK, hscanK]
      exact hka
  case isFalse hguard =>
    simp only [Bool.or_eq_true, decide_eq_true_eq, beq_iff_eq, not_or] at hguard
    obtain ⟨⟨⟨hex, hpos⟩, hcnt⟩, ha0⟩ := hguard
    obtain ⟨hK, hL, _⟩ := condMark_facts
      ((decide ((sellScanGo t 0 0 s.mAsks).largestOrderId ≠ 0) &&
        !((lookupOrder (sellScanGo t 0 0 s.mAsks).mAsks
             (sellScanGo t 0 0 s.mAsks).largestOrderId).getD MIN_ORDER).cancelling &&
        decide (s.mETFOrderAskCount ≥ MAX_ORDER_DEPTH - 1)))
      (sellScanGo t 0 0 s.mAsks).mAsks (sellScanGo t 0 0 s.mAsks).largestOrderId
    refine ⟨?_, hcb, ?_, hlb, ?_, hnb, ?_, ?_, ?_⟩
    · dsimp only
      rw [List.length_append, hL, hscanL]
      simp only [List.length_cons, List.length_nil]
      omega
    · dsimp only
      unfold MAX_ORDER_DEPTH at hcnt ⊢
      omega
    · dsimp only
      rw [keysOf_append, hK, hscanK]
      simp only [keysOf_cons, keysOf_nil]
      rw [List.nodup_append]
      refine ⟨hna, List.nodup_singleton _, ?_⟩
      intro x hx hy
      simp only [List.mem_singleton] at hy
      have := hka x hx
      omega
    · dsimp only
      intro k hk
      rw [keysOf_append, hK, hscanK] at hk
      rcases List.mem_append.mp hk with hk | hk
      · exact Nat.lt_succ_of_lt (hka k hk)
      · simp only [keysOf_cons, keysOf_nil, List.mem_singleton] at hk
        subst hk
        exact Nat.lt_succ_self _
    · dsimp only
      exact fun k hk => Nat.lt_succ_of_lt (hkb k hk)
    · exact Nat.le_succ_of_le hid

theorem RepriceBuy_invCount {s : State} (b : Nat) (h : InvCount s) :
    InvCount (RepriceBuyOrders s b).1 := by
  obtain ⟨hca, hcb, hla, hlb, hna, hnb, hka, hkb, hid⟩ := h
  simp only [RepriceBuyOrders]
  set t : Nat := (if b ≠ 0 then
      min (usub s.mMarketMinAsk 100) (MultiplyBasis b (-MARGIN_BASIS) false)
    else 0) with ht
  have hscanK : keysOf (buyScanGo t 0 MAXIMUM_ASK s.mBids).mBids = keysOf s.mBids := by
    rw [buyScanGo_mBids]
    exact keysOf_map_keyfix (buyMark_keyfix _)
  have hscanL : (buyScanGo t 0 MAXIMUM_ASK s.mBids).mBids.length = s.mBids.length := by
    rw [buyScanGo_mBids]
    exact length_map_keyfix _ _
  split
  case isTrue hguard =>
    obtain ⟨hK, hL, _⟩ := condMark_facts
      ((decide ((buyScanGo t 0 MAXIMUM_ASK s.mBids).smallestOrderId ≠ 0) &&
        !((lookupOrder (buyScanGo t 0 MAXIMUM_ASK s.mBids).mBids
             (buyScanGo t 0 MAXIMUM_ASK s.mBids).smallestOrderId).getD MAX_ORDER).cancelling &&
        decide (s.mETFOrderBidCount ≥ MAX_ORDER_DEPTH - 1)))
      (buyScanGo t 0 MAXIMUM_ASK s.mBids).mBids (buyScanGo t 0 MAXIMUM_ASK s.mBids).smallestOrderId
    refine ⟨hca, ?_, hla, ?_, hna, ?_, hka, ?_, hid⟩
    · dsimp only
      rw [hL, hscanL]
      exact hcb
    · exact hlb
    · dsimp only
      rw [hK, hscanK]
      exact hnb
    · dsimp only
      rw [hK, hscanK]
      exact hkb
  case isFalse hguard =>
    simp only [Bool.or_eq_true, decide_eq_true_eq, beq_iff_eq, not_or] at hguard
    obtain ⟨⟨⟨hex, hpos⟩, hcnt⟩, hb0⟩ := hguard
    obtain ⟨hK, hL, _⟩ := condMark_facts
      ((decide ((buyScanGo t 0 MAXIMUM_ASK s.mBids).smallestOrderId ≠ 0) &&
        !((lookupOrder (buyScanGo t 0 MAXIMUM_ASK s.mBids).mBids
             (buyScanGo t 0 MAXIMUM_ASK s.mBids).smallestOrderId).getD MAX_ORDER).cancelling &&
        decide (s.mETFOrderBidCount ≥ MAX_ORDER_DEPTH - 1)))
      (buyScanGo t 0 MAXIMUM_ASK s.mBids).mBids (buyScanGo t 0 MAXIMUM_ASK s.mBids).smallestOrderId
    refine ⟨hca, ?_, hla, ?_, hna, ?_, ?_, ?_, ?_⟩
    · dsimp only
      rw [List.length_append, hL, hscanL]
      simp only [List.length_cons, List.length_nil]
      omega
    · dsimp only
      unfold MAX_ORDER_DEPTH at hcnt ⊢
      omega
    · dsimp only
      rw [keysOf_append, hK, hscanK]
      simp only [keysOf_cons, keysOf_nil]
      rw [List.nodup_append]
      refine ⟨hnb, List.nodup_singleton _, ?_⟩
      intro x hx hy
      simp only [List.mem_singleton] at hy
      have := hkb x hx
      omega
    · dsimp only
      intro k hk
      exact Nat.lt_succ_of_lt (hka k hk)
    · dsimp only
      intro k hk
      rw [keysOf_append, hK, hscanK] at hk
      rcases List.mem_append.mp hk with hk | hk
      · exact Nat.lt_succ_of_lt (hkb k hk)
      · simp only [keysOf_cons, keysOf_nil, List.mem_singleton] at hk
        subst hk
        exact Nat.lt_succ_self _
    · exact Nat.le_succ_of_le hid

theorem RepriceSell_invPos {s : State} (a : Nat) (h : InvPos s) :
    InvPos (RepriceSellOrders s a).1 := by
  obtain ⟨hc, hrs, hrb, h3, h4, hba, hbb⟩ := h
  obtain ⟨hca, hcb, hla, hlb, hna, hnb, hka, hkb, hid⟩ := hc
  have hPL : POSITION_LIMIT = (100 : Int) := rfl
  have hMD : MAX_ORDER_DEPTH = (5 : Int) := rfl
  have hSnn : (0 : Int) ≤ (sumRemaining s.mAsks : Int) := Int.ofNat_nonneg _
  have hBnn : (0 : Int) ≤ (sumRemaining s.mBids : Int) := Int.ofNat_nonneg _
  have hposlb : -100 ≤ s.mETFPosition := by omega
  have hposub : s.mETFPosition ≤ 100 := by omega
  simp only [RepriceSellOrders]
  set t : Nat := (if a ≠ 0 then
      max ((s.mMarketMaxBid + 100) % U64) (MultiplyBasis a MARGIN_BASIS true)
    else MAXIMUM_ASK) with ht
  set v : Int := (s.mETFPosition + POSITION_LIMIT).tdiv MAX_ORDER_DEPTH with hv
  have hvEq : v = (s.mETFPosition + 100) / 5 := by
    rw [hv, hPL, hMD, Int.tdiv_eq_ediv (by omega) (by norm_num)]
  have hv0 : 0 ≤ v := by omega
  have hv40 : v ≤ 40 := by omega
  have hcast : (intToU64 v : Int) = v := intToU64_cast hv0 (by omega)
  have hscanK : keysOf (sellScanGo t 0 0 s.mAsks).mAsks = keysOf s.mAsks := by
    rw [sellScanGo_mAsks]
    exact keysOf_map_keyfix (sellMark_keyfix _)
  have hscanL : (sellScanGo t 0 0 s.mAsks).mAsks.length = s.mAsks.length := by
    rw [sellScanGo_mAsks]
    exact length_map_keyfix _ _
  have hscanS : sumRemaining (sellScanGo t 0 0 s.mAsks).mAsks = sumRemaining s.mAsks := by
    rw [sellScanGo_mAsks]
    exact sumRemaining_map_volfix (fun p => (sellMark_volfix t p).1)
  have hscanB : ∀ p ∈ (sellScanGo t 0 0 s.mAsks).mAsks,
      p.2.remainingVolume ≤ 40 ∧ p.2.filledVolume < U64 := by
    rw [sellScanGo_mAsks]
    exact orderBound_map_volfix (sellMark_volfix t) hba
  split
  case isTrue hguard =>
    obtain ⟨hK, hL, hS⟩ := condMark_facts
      ((decide ((sellScanGo t 0 0 s.mAsks).largestOrderId ≠ 0) &&
        !((lookupOrder (sellScanGo t 0 0 s.mAsks).mAsks
             (sellScanGo t 0 0 s.mAsks).largestOrderId).getD MIN_ORDER).cancelling &&
        decide (s.mETFOrderAskCount ≥ MAX_ORDER_DEPTH - 1)))
      (sellScanGo t 0 0 s.mAsks).mAsks (sellScanGo t 0 0 s.mAsks).largestOrderId
    refine ⟨⟨?_, hcb, hla, hlb, ?_, hnb, ?_, hkb, hid⟩, ?_, hrb, h3, h4, ?_, hbb⟩
    · dsimp only
      rw [hL, hscanL]
      exact hca
    · dsimp only
      rw [hK, hscanK]
      exact hna
    · dsimp only
      rw [hK, hscanK]
      exact hka
    · dsimp only
      rw [hS, hscanS]
      exact hrs
    · dsimp only
      exact condMark_bounds _ _ _ hscanB
  case isFalse hguard =>
    simp only [Bool.or_eq_true, decide_eq_true_eq, beq_iff_eq, not_or] at hguard
    obtain ⟨⟨⟨hex, hpos⟩, hcnt⟩, ha0⟩ := hguard
    obtain ⟨hK, hL, hS⟩ := condMark_facts
      ((decide ((sellScanGo t 0 0 s.mAsks).largestOrderId ≠ 0) &&
        !((lookupOrder (sellScanGo t 0 0 s.mAsks).mAsks
             (sellScanGo t 0 0 s.mAsks).largestOrderId).getD MIN_ORDER).cancelling &&
        decide (s.mETFOrderAskCount ≥ MAX_ORDER_DEPTH - 1)))
      (sellScanGo t 0 0 s.mAsks).mAsks (sellScanGo t 0 0 s.mAsks).largestOrderId
    refine ⟨⟨?_, hcb, ?_, hlb, ?_, ?_, ?_, ?_, ?_⟩, ?_, hrb, ?_, h4, ?_, hbb⟩
    · dsimp only
      rw [List.length_append, hL, hscanL]
      simp only [List.length_cons, List.length_nil]
      omega
    · dsimp only
      omega
    · dsimp only
      rw [keysOf_append, hK, hscanK]
      simp only [keysOf_cons, keysOf_nil]
      rw [List.nodup_append]
      refine ⟨hna, List.nodup_singleton _, ?_⟩
      intro x hx hy
      simp only [List.mem_singleton] at hy
      have := hka x hx
      omega
    · exact hnb
    · dsimp only
      intro k hk
      rw [keysOf_append, hK, hscanK] at hk
      rcases List.mem_append.mp hk with hk | hk
      · exact Nat.lt_succ_of_lt (hka k hk)
      · simp only [keysOf_cons, keysOf_nil, List.mem_singleton] at hk
        subst hk
        exact Nat.lt_succ_self _
    · dsimp only
      exact fun k hk => Nat.lt_succ_of_lt (hkb k hk)
    · exact Nat.le_succ_of_le hid
    · dsimp only
      rw [sumRemaining_append, hS, hscanS, sumRemaining_cons, sumRemaining_nil]
      dsimp only
      push_cast
      omega
    · dsimp only
      omega
    · dsimp only
      intro p hp
      rcases List.mem_append.mp hp with hp | hp
      · exact condMark_bounds _ _ _ hscanB p hp
      · simp only [List.mem_singleton] at hp
        subst hp
        dsimp only
        exact ⟨by omega, by decide⟩

theorem RepriceBuy_invPos {s : State} (b : Nat) (h : InvPos s) :
    InvPos (RepriceBuyOrders s b).1 := by
  obtain ⟨hc, hrs, hrb, h3, h4, hba, hbb⟩ := h
  obtain ⟨hca, hcb, hla, hlb, hna, hnb, hka, hkb, hid⟩ := hc
  have hPL : POSITION_LIMIT = (100 : Int) := rfl
  have hMD : MAX_ORDER_DEPTH = (5 : Int) := rfl
  have hSnn : (0 : Int) ≤ (sumRemaining s.mAsks : Int) := Int.ofNat_nonneg _
  have hBnn : (0 : Int) ≤ (sumRemaining s.mBids : Int) := Int.ofNat_nonneg _
  have hposlb : -100 ≤ s.mETFPosition := by omega
  have hposub : s.mETFPosition ≤ 100 := by omega
  simp only [RepriceBuyOrders]
  set t : Nat := (if b ≠ 0 then
      min (usub s.mMarketMinAsk 100) (MultiplyBasis b (-MARGIN_BASIS) false)
    else 0) with ht
  set v : Int := (POSITION_LIMIT - s.mETFPosition).tdiv MAX_ORDER_DEPTH with hv
  have hvEq : v = (100 - s.mETFPosition) / 5 := by
    rw [hv, hPL, hMD, Int.tdiv_eq_ediv (by omega) (by norm_num)]
  have hv0 : 0 ≤ v := by omega
  have hv40 : v ≤ 40 := by omega
  have hcast : (intToU64 v : Int) = v := intToU64_cast hv0 (by omega)
  have hscanK : keysOf (buyScanGo t 0 MAXIMUM_ASK s.mBids).mBids = keysOf s.mBids := by
    rw [buyScanGo_mBids]
    exact keysOf_map_keyfix (buyMark_keyfix _)
  have hscanL : (buyScanGo t 0 MAXIMUM_ASK s.mBids).mBids.length = s.mBids.length := by
    rw [buyScanGo_mBids]
    exact length_map_keyfix _ _
  have hscanS : sumRemaining (buyScanGo t 0 MAXIMUM_ASK s.mBids).mBids
      = sumRemaining s.mBids := by
    rw [buyScanGo_mBids]
    exact sumRemaining_map_volfix (fun p => (buyMark_volfix t p).1)
  have hscanB : ∀ p ∈ (buyScanGo t 0 MAXIMUM_ASK s.mBids).mBids,
      p.2.remainingVolume ≤ 40 ∧ p.2.filledVolume < U64 := by
    rw [buyScanGo_mBids]
    exact orderBound_map_volfix (buyMark_volfix t) hbb
  split
  case isTrue hguard =>
    obtain ⟨hK, hL, hS⟩ := condMark_facts
      ((decide ((buyScanGo t 0 MAXIMUM_ASK s.mBids).smallestOrderId ≠ 0) &&
        !((lookupOrder (buyScanGo t 0 MAXIMUM_ASK s.mBids).mBids
             (buyScanGo t 0 MAXIMUM_ASK s.mBids).smallestOrderId).getD MAX_ORDER).cancelling &&
        decide (s.mETFOrderBidCount ≥ MAX_ORDER_DEPTH - 1)))
      (buyScanGo t 0 MAXIMUM_ASK s.mBids).mBids (buyScanGo t 0 MAXIMUM_ASK s.mBids).smallestOrderId
    refine ⟨⟨hca, ?_, hla, hlb, hna, ?_, hka, ?_, hid⟩, hrs, ?_, h3, h4, hba, ?_⟩
    · dsimp only
      rw [hL, hscanL]
      exact hcb
    · dsimp only
      rw [hK, hscanK]
      exact hnb
    · dsimp only
      rw [hK, hscanK]
      exact hkb
    · dsimp only
      rw [hS, hscanS]
      exact hrb
    · dsimp only
      exact condMark_bounds _ _ _ hscanB
  case isFalse hguard =>
    simp only [Bool.or_eq_true, decide_eq_true_eq, beq_iff_eq, not_or] at hguard
    obtain ⟨⟨⟨hex, hpos⟩, hcnt⟩, hb0⟩ := hguard
    obtain ⟨hK, hL, hS⟩ := condMark_facts
      ((decide ((buyScanGo t 0 MAXIMUM_ASK s.mBids).smallestOrderId ≠ 0) &&
        !((lookupOrder (buyScanGo t 0 MAXIMUM_ASK s.mBids).mBids
             (buyScanGo t 0 MAXIMUM_ASK s.mBids).smallestOrderId).getD MAX_ORDER).cancelling &&
        decide (s.mETFOrderBidCount ≥ MAX_ORDER_DEPTH - 1)))
      (buyScanGo t 0 MAXIMUM_ASK s.mBids).mBids (buyScanGo t 0 MAXIMUM_ASK s.mBids).smallestOrderId
    refine ⟨⟨hca, ?_, hla, ?_, hna, ?_, ?_, ?_, ?_⟩, hrs, ?_, h3, ?_, hba, ?_⟩
    · dsimp only
      rw [List.length_append, hL, hscanL]
      simp only [List.length_cons, List.length_nil]
      omega
    · dsimp only
      omega
    · dsimp only
      rw [keysOf_append, hK, hscanK]
      simp only [keysOf_cons, keysOf_nil]
      rw [List.nodup_append]
      refine ⟨hnb, List.nodup_singleton _, ?_⟩
      intro x hx hy
      simp only [List.mem_singleton] at hy
      have := hkb x hx
      omega
    · dsimp only
      exact fun k hk => Nat.lt_succ_of_lt (hka k hk)
    · dsimp only
      intro k hk
      rw [keysOf_append, hK, hscanK] at hk
      rcases List.mem_append.mp hk with hk | hk
      · exact Nat.lt_succ_of_lt (hkb k hk)
      · simp only [keysOf_cons, keysOf_nil, List.mem_singleton] at hk
        subst hk
        exact Nat.lt_succ_self _
    · exact Nat.le_succ_of_le hid
    · dsimp only
      rw [sumRemaining_append, hS, hscanS, sumRemaining_cons, sumRemaining_nil]
      dsimp only
      push_cast
      omega
    · dsimp only
      omega
    · dsimp only
      intro p hp
      rcases List.mem_append.mp hp with hp | hp
      · exact condMark_bounds _ _ _ hscanB p hp
      · simp only [List.mem_singleton] at hp
        subst hp
        dsimp only
        exact ⟨by omega, by decide⟩

/-! ## Status-handler characterizations -/

/-- A status or error event for an id in neither side mapping is ignored. -/
theorem OrderStatus_untracked {s : State} {id : Nat} (fill rem : Nat) (fees : Int)
    (hA : lookupOrder s.mAsks id = none) (hB : lookupOrder s.mBids id = none) :
    OrderStatusMessageHandler s id fill rem fees = (s, []) := by
  simp [OrderStatusMessageHandler, containsOrder, hA, hB]

/-- Explicit form of the status handler on an order tracked on the ask side. -/
theorem OrderStatus_ask_eq {s : State} {id : Nat} {o : Order} (fill rem : Nat) (fees : Int)
    (hA : lookupOrder s.mAsks id = some o) :
    OrderStatusMessageHandler s id fill rem fees =
      ({ s with
          mAsks := if rem % U64 > 0
            then setOrder s.mAsks id
              { o with remainingVolume := rem % U64, filledVolume := fill % U64 }
            else eraseOrder s.mAsks id,
          mETFOrderAskCount := if rem % U64 > 0 then s.mETFOrderAskCount
            else s.mETFOrderAskCount - 1,
          mETFPosition := if usub (fill % U64) o.filledVolume > 0
            then wrap64 (s.mETFPosition
              + (((U64 - usub (fill % U64) o.filledVolume) % U64 : Nat) : Int))
            else s.mETFPosition,
          mETFOrderPositionSell :=
            wrap64 (s.mETFOrderPositionSell - (usub o.remainingVolume (rem % U64) : Int)),
          mNextMessageId := if usub (fill % U64) o.filledVolume > 0
            then s.mNextMessageId + 1 else s.mNextMessageId },
       if usub (fill % U64) o.filledVolume > 0
       then [Command.hedgeOrder s.mNextMessageId Side.buy MAX_ASK_NEAREST_TICK
               (usub (fill % U64) o.filledVolume)]
       else []) := by
  have hA' : containsOrder s.mAsks id = true := by
    simp [containsOrder, hA]
  by_cases hd : usub (fill % U64) o.filledVolume > 0
  · by_cases hr : rem % U64 > 0
    · simp [OrderStatusMessageHandler, hA', hA, hd, hr]
    · simp [OrderStatusMessageHandler, hA', hA, hd, hr]
  · by_cases hr : rem % U64 > 0
    · simp [OrderStatusMessageHandler, hA', hA, hd, hr]
    · simp [OrderStatusMessageHandler, hA', hA, hd, hr]

/-- Explicit form of the status handler on an order tracked on the bid side
(and not on the ask side, which the handler checks first). -/
theorem OrderStatus_bid_eq {s : State} {id : Nat} {o : Order} (fill rem : Nat) (fees : Int)
    (hA : lookupOrder s.mAsks id = none) (hB : lookupOrder s.mBids id = some o) :
    OrderStatusMessageHandler s id fill rem fees =
      ({ s with
          mBids := if rem % U64 > 0
            then setOrder s.mBids id
              { o with remainingVolume := rem % U64, filledVolume := fill % U64 }
            else eraseOrder s.mBids id,
          mETFOrderBidCount := if rem % U64 > 0 then s.mETFOrderBidCount
            else s.mETFOrderBidCount - 1,
          mETFPosition := if usub (fill % U64) o.filledVolume > 0
            then wrap64 (s.mETFPosition + ((usub (fill % U64) o.filledVolume : Nat) : Int))
            else s.mETFPosition,
          mETFOrderPositionBuy :=
            wrap64 (s.mETFOrderPositionBuy - (usub o.remainingVolume (rem % U64) : Int)),
          mNextMessageId := if usub (fill % U64) o.filledVolume > 0
            then s.mNextMessageId + 1 else s.mNextMessageId },
       if usub (fill % U64) o.filledVolume > 0
       then [Command.hedgeOrder s.mNextMessageId Side.sell MIN_BID_NEARST_TICK
               (usub (fill % U64) o.filledVolume)]
       else []) := by
  have hA' : containsOrder s.mAsks id = false := by
    simp [containsOrder, hA]
  have hB' : containsOrder s.mBids id = true := by
    simp [containsOrder, hB]
  by_cases hd : usub (fill % U64) o.filledVolume > 0
  · by_cases hr : rem % U64 > 0
    · simp [OrderStatusMessageHandler, hA', hB', hB, hd, hr]
    · simp [OrderStatusMessageHandler, hA', hB', hB, hd, hr]
  · by_cases hr : rem % U64 > 0
    · simp [OrderStatusMessageHandler, hA', hB', hB, hd, hr]
    · simp [OrderStatusMessageHandler, hA', hB', hB, hd, hr]

/-! ## Status-handler preservation -/

theorem wrap64_pos_sell {p : Int} {d : Nat} (hd0 : 0 < d) (hd : d ≤ 40)
    (hp1 : -100 ≤ p) (hp2 : p ≤ 100) :
    wrap64 (p + (((U64 - d) % U64 : Nat) : Int)) = p - d := by
  have hle : d ≤ U64 := by unfold U64; omega
  rw [Nat.mod_eq_of_lt (by unfold U64; omega), Nat.cast_sub hle]
  unfold wrap64 U64
  omega

theorem wrap64_pos_buy {p : Int} {d : Nat} (hd : d ≤ 40)
    (hp1 : -100 ≤ p) (hp2 : p ≤ 100) :
    wrap64 (p + (d : Int)) = p + d := by
  unfold wrap64
  omega

theorem wrap64_rsv {r : Int} {d : Nat} (hr0 : 0 ≤ r) (hr : r ≤ 200) (hd : d ≤ 200) :
    wrap64 (r - (d : Int)) = r - d := by
  unfold wrap64
  omega

theorem OrderStatus_invCount {s : State} (id fill rem : Nat) (fees : Int) (h : InvCount s) :
    InvCount (OrderStatusMessageHandler s id fill rem fees).1 := by
  have hMD : MAX_ORDER_DEPTH = (5 : Int) := rfl
  cases hA : lookupOrder s.mAsks id with
  | some o =>
    obtain ⟨hca, hcb, hla, hlb, hna, hnb, hka, hkb, hid⟩ := h
    rw [OrderStatus_ask_eq fill rem fees hA]
    have hnid : s.mNextMessageId
        ≤ (if usub (fill % U64) o.filledVolume > 0
           then s.mNextMessageId + 1 else s.mNextMessageId) := by
      split
      · exact Nat.le_succ _
      · exact Nat.le_refl _
    by_cases hr : rem % U64 > 0
    · simp only [if_pos hr]
      refine ⟨?_, hcb, hla, hlb, ?_, hnb, ?_, ?_, ?_⟩
      · dsimp only
        rw [length_setOrder]
        exact hca
      · dsimp only
        rw [keysOf_setOrder]
        exact hna
      · dsimp only
        rw [keysOf_setOrder]
        exact fun k hk => Nat.lt_of_lt_of_le (hka k hk) hnid
      · dsimp only
        exact fun k hk => Nat.lt_of_lt_of_le (hkb k hk) hnid
      · dsimp only
        exact Nat.le_trans hid hnid
    · simp only [if_neg hr]
      have hlen := eraseOrder_length hA hna
      refine ⟨?_, hcb, ?_, hlb, ?_, hnb, ?_, ?_, ?_⟩
      · dsimp only
        omega
      · dsimp only
        omega
      · dsimp only
        exact nodup_keysOf_eraseOrder hna
      · dsimp only
        exact fun k hk => Nat.lt_of_lt_of_le (hka k (keysOf_eraseOrder_sub hk)) hnid
      · dsimp only
        exact fun k hk => Nat.lt_of_lt_of_le (hkb k hk) hnid
      · dsimp only
        exact Nat.le_trans hid hnid
  | none =>
    cases hB : lookupOrder s.mBids id with
    | some o =>
      obtain ⟨hca, hcb, hla, hlb, hna, hnb, hka, hkb, hid⟩ := h
      rw [OrderStatus_bid_eq fill rem fees hA hB]
      have hnid : s.mNextMessageId
          ≤ (if usub (fill % U64) o.filledVolume > 0
             then s.mNextMessageId + 1 else s.mNextMessageId) := by
        split
        · exact Nat.le_succ _
        · exact Nat.le_refl _
      by_cases hr : rem % U64 > 0
      · simp only [if_pos hr]
        refine ⟨hca, ?_, hla, hlb, hna, ?_, ?_, ?_, ?_⟩
        · dsimp only
          rw [length_setOrder]
          exact hcb
        · dsimp only
          rw [keysOf_setOrder]
          exact hnb
        · dsimp only
          exact fun k hk => Nat.lt_of_lt_of_le (hka k hk) hnid
        · dsimp only
          rw [keysOf_setOrder]
          exact fun k hk => Nat.lt_of_lt_of_le (hkb k hk) hnid
        · dsimp only
          exact Nat.le_trans hid hnid
      · simp only [if_neg hr]
        have hlen := eraseOrder_length hB hnb
        refine ⟨hca, ?_, hla, ?_, hna, ?_, ?_, ?_, ?_⟩
        · dsimp only
          omega
        · dsimp only
          omega
        · dsimp only
          exact nodup_keysOf_eraseOrder hnb
        · dsimp only
          exact fun k hk => Nat.lt_of_lt_of_le (hka k hk) hnid
        · dsimp only
          exact fun k hk => Nat.lt_of_lt_of_le (hkb k (keysOf_eraseOrder_sub hk)) hnid
        · dsimp only
          exact Nat.le_trans hid hnid
    | none =>
      rw [OrderStatus_untracked fill rem fees hA hB]
      exact h

theorem OrderStatus_invPos {s : State} (id fill rem : Nat) (fees : Int) (h : InvPos s)
    (hwf : wfEvent s (Event.orderStatus id fill rem fees) = true) :
    InvPos (OrderStatusMessageHandler s id fill rem fees).1 := by
  obtain ⟨hc, hrs, hrb, h3, h4, hba, hbb⟩ := h
  have hic := OrderStatus_invCount id fill rem fees hc
  have hPL : POSITION_LIMIT = (100 : Int) := rfl
  have hMD : MAX_ORDER_DEPTH = (5 : Int) := rfl
  obtain ⟨hca, hcb, hla, hlb, hna, hnb, hka, hkb, hid⟩ := hc
  have hSnn : (0 : Int) ≤ (sumRemaining s.mAsks : Int) := Int.ofNat_nonneg _
  have hBnn : (0 : Int) ≤ (sumRemaining s.mBids : Int) := Int.ofNat_nonneg _
  have hposlb : -100 ≤ s.mETFPosition := by omega
  have hposub : s.mETFPosition ≤ 100 := by omega
  have hSa : sumRemaining s.mAsks ≤ 40 * s.mAsks.length :=
    sumRemaining_le_of_bounded (fun p hp => (hba p hp).1)
  have hSb : sumRemaining s.mBids ≤ 40 * s.mBids.length :=
    sumRemaining_le_of_bounded (fun p hp => (hbb p hp).1)
  have hlenA : s.mAsks.length ≤ 5 := by omega
  have hlenB : s.mBids.length ≤ 5 := by omega
  cases hA : lookupOrder s.mAsks id with
  | some o =>
    have hA' : containsOrder s.mAsks id = true := by
      simp [containsOrder, hA]
    simp only [wfEvent, hA', if_true, hA, Bool.and_eq_true, decide_eq_true_eq] at hwf
    obtain ⟨⟨hfU, hrU⟩, hmono, hsum⟩ := hwf
    have hfill : fill % U64 = fill := Nat.mod_eq_of_lt hfU
    have hremm : rem % U64 = rem := Nat.mod_eq_of_lt hrU
    have hbo := hba (id, o) (lookupOrder_mem hA)
    dsimp only at hbo
    have hoU : o.remainingVolume < U64 := by
      have := hbo.1
      unfold U64
      omega
    have hrle : rem ≤ o.remainingVolume := by omega
    have hdF : usub (fill % U64) o.filledVolume = fill - o.filledVolume := by
      rw [hfill]
      exact usub_of_le hmono hfU
    have hdR : usub o.remainingVolume (rem % U64) = o.remainingVolume - rem := by
      rw [hremm]
      exact usub_of_le hrle hoU
    rw [OrderStatus_ask_eq fill rem fees hA] at hic ⊢
    rw [hdF, hdR] at hic ⊢
    rw [hfill, hremm] at hic ⊢
    refine ⟨hic, ?_, ?_, ?_, ?_, ?_, ?_⟩
    all_goals dsimp only
    · rw [hrs, wrap64_rsv hSnn (by omega) (by omega)]
      by_cases hr : rem > 0
      · simp only [if_pos hr]
        have hset := setOrder_sum (o :=
          { o with remainingVolume := rem, filledVolume := fill }) hA hna
        dsimp only at hset
        omega
      · simp only [if_neg hr]
        have hers := eraseOrder_sum hA hna
        omega
    · exact hrb
    · rw [hrs, wrap64_rsv hSnn (by omega) (by omega)]
      by_cases hd : fill - o.filledVolume > 0
      · simp only [if_pos hd]
        rw [wrap64_pos_sell hd (by omega) hposlb hposub]
        omega
      · simp only [if_neg hd]
        omega
    · by_cases hd : fill - o.filledVolume > 0
      · simp only [if_pos hd]
        rw [wrap64_pos_sell hd (by omega) hposlb hposub]
        omega
      · simp only [if_neg hd]
        omega
    · by_cases hr : rem > 0
      · simp only [if_pos hr]
        refine mem_filledBound_setOrder hba ⟨?_, ?_⟩
        · dsimp only
          omega
        · dsimp only
          exact hfU
      · simp only [if_neg hr]
        exact fun p hp => hba p (mem_eraseOrder hp)
    · exact hbb
  | none =>
    cases hB : lookupOrder s.mBids id with
    | some o =>
      have hA' : containsOrder s.mAsks id = false := by
        simp [containsOrder, hA]
      have hB' : containsOrder s.mBids id = true := by
        simp [containsOrder, hB]
      simp only [wfEvent, hA', if_false, Bool.false_eq_true, hB, Bool.and_eq_true,
        decide_eq_true_eq] at hwf
      obtain ⟨⟨hfU, hrU⟩, hmono, hsum⟩ := hwf
      have hfill : fill % U64 = fill := Nat.mod_eq_of_lt hfU
      have hremm : rem % U64 = rem := Nat.mod_eq_of_lt hrU
      have hbo := hbb (id, o) (lookupOrder_mem hB)
      dsimp only at hbo
      have hoU : o.remainingVolume < U64 := by
        have := hbo.1
        unfold U64
        omega
      have hrle : rem ≤ o.remainingVolume := by omega
      have hdF : usub (fill % U64) o.filledVolume = fill - o.filledVolume := by
        rw [hfill]
        exact usub_of_le hmono hfU
      have hdR : usub o.remainingVolume (rem % U64) = o.remainingVolume - rem := by
        rw [hremm]
        exact usub_of_le hrle hoU
      rw [OrderStatus_bid_eq fill rem fees hA hB] at hic ⊢
      rw [hdF, hdR] at hic ⊢
      rw [hfill, hremm] at hic ⊢
      refine ⟨hic, ?_, ?_, ?_, ?_, ?_, ?_⟩
      all_goals dsimp only
      · exact hrs
      · rw [hrb, wrap64_rsv hBnn (by omega) (by omega)]
        by_cases hr : rem > 0
        · simp only [if_pos hr]
          have hset := setOrder_sum (o :=
            { o with remainingVolume := rem, filledVolume := fill }) hB hnb
          dsimp only at hset
          omega
        · simp only [if_neg hr]
          have hers := eraseOrder_sum hB hnb
          omega
      · by_cases hd : fill - o.filledVolume > 0
        · simp only [if_pos hd]
          rw [wrap64_pos_buy (by omega) hposlb hposub]
          omega
        · simp only [if_neg hd]
          omega
      · rw [hrb, wrap64_rsv hBnn (by omega) (by omega)]
        by_cases hd : fill - o.filledVolume > 0
        · simp only [if_pos hd]
          rw [wrap64_pos_buy (by omega) hposlb hposub]
          omega
        · simp only [if_neg hd]
          omega
      · exact hba
      · by_cases hr : rem > 0
        · simp only [if_pos hr]
          refine mem_filledBound_setOrder hbb ⟨?_, ?_⟩
          · dsimp only
            omega
          · dsimp only
            exact hfU
        · simp only [if_neg hr]
          exact fun p hp => hbb p (mem_eraseOrder hp)
    | none =>
      rw [OrderStatus_untracked fill rem fees hA hB]
      exact ⟨⟨hca, hcb, hla, hlb, hna, hnb, hka, hkb, hid⟩, hrs, hrb, h3, h4, hba, hbb⟩

/-! ## Event-level and trace-level preservation -/

theorem Error_invCount {s : State} (id : Nat) (h : InvCount s) :
    InvCount (ErrorMessageHandler s id).1 := by
  unfold ErrorMessageHandler
  split
  · exact OrderStatus_invCount id 0 0 0 h
  · exact h

theorem Error_invPos {s : State} (id : Nat) (h : InvPos s)
    (hwf : wfEvent s (Event.orderError id) = true) :
    InvPos (ErrorMessageHandler s id).1 := by
  have hstat : wfEvent s (Event.orderStatus id 0 0 0) = true := by
    simp only [wfEvent] at hwf ⊢
    cases hAB : (if containsOrder s.mAsks id then lookupOrder s.mAsks id
        else lookupOrder s.mBids id) with
    | none =>
      simp [U64]
    | some o =>
      rw [hAB] at hwf
      simp only [decide_eq_true_eq] at hwf
      simp [hwf, U64]
  unfold ErrorMessageHandler
  split
  · exact OrderStatus_invPos id 0 0 0 h hstat
  · exact h

theorem OrderBook_invCount {s : State} (instr : Instrument) (seq a b : Nat)
    (h : InvCount s) :
    InvCount (OrderBookMessageHandler s instr seq a b).1 := by
  simp only [OrderBookMessageHandler]
  by_cases hi : instr ≠ Instrument.future
  · rw [if_pos hi]
    exact h
  · rw [if_neg hi]
    by_cases hseq : seq % U64 ≤ s.mOrderBookSequence
    · rw [if_pos hseq]
      exact h
    · rw [if_neg hseq]
      exact RepriceBuy_invCount _ (RepriceSell_invCount _ h)

theorem OrderBook_invPos {s : State} (instr : Instrument) (seq a b : Nat)
    (h : InvPos s) :
    InvPos (OrderBookMessageHandler s instr seq a b).1 := by
  simp only [OrderBookMessageHandler]
  by_cases hi : instr ≠ Instrument.future
  · rw [if_pos hi]
    exact ⟨h.1, h.2.1, h.2.2.1, h.2.2.2.1, h.2.2.2.2.1, h.2.2.2.2.2.1, h.2.2.2.2.2.2⟩
  · rw [if_neg hi]
    by_cases hseq : seq % U64 ≤ s.mOrderBookSequence
    · rw [if_pos hseq]
      exact h
    · rw [if_neg hseq]
      refine RepriceBuy_invPos _ (RepriceSell_invPos _ ?_)
      exact ⟨h.1, h.2.1, h.2.2.1, h.2.2.2.1, h.2.2.2.2.1, h.2.2.2.2.2.1, h.2.2.2.2.2.2⟩

theorem step_invCount {s : State} (e : Event) (h : InvCount s) :
    InvCount (step s e).1 := by
  cases e with
  | orderBook instr seq a b => exact OrderBook_invCount instr seq a b h
  | orderStatus id fill rem fees => exact OrderStatus_invCount id fill rem fees h
  | orderError id => exact Error_invCount id h
  | tradeTicks => exact h
  | hedgeFilled => exact h

theorem step_invPos {s : State} (e : Event) (h : InvPos s) (hwf : wfEvent s e = true) :
    InvPos (step s e).1 := by
  cases e with
  | orderBook instr seq a b => exact OrderBook_invPos instr seq a b h
  | orderStatus id fill rem fees => exact OrderStatus_invPos id fill rem fees h hwf
  | orderError id => exact Error_invPos id h hwf
  | tradeTicks => exact h
  | hedgeFilled => exact h

theorem runEvents_invCount : ∀ (es : List Event) (s : State),
    InvCount s → InvCount (runEvents s es)
  | [], _, h => h
  | e :: es, s, h => runEvents_invCount es _ (step_invCount e h)

theorem runEvents_invPos : ∀ (es : List Event) (s : State),
    InvPos s → wfTrace s es = true → InvPos (runEvents s es)
  | [], _, h, _ => h
  | e :: es, s, h, hwt => by
    rw [wfTrace] at hwt
    simp only [Bool.and_eq_true] at hwt
    exact runEvents_invPos es _ (step_invPos e h hwt.1) hwt.2

theorem initState_invCount : InvCount initState := by
  refine ⟨rfl, rfl, by decide, by decide, List.nodup_nil, List.nodup_nil, ?_, ?_, le_refl 1⟩
  · intro k hk
    simp [initState, keysOf] at hk
  · intro k hk
    simp [initState, keysOf] at hk

theorem initState_invPos : InvPos initState := by
  refine ⟨initState_invCount, rfl, rfl, by decide, by decide, ?_, ?_⟩
  · intro p hp
    simp [initState] at hp
  · intro p hp
    simp [initState] at hp

/-! ## Classification of emitted commands -/

theorem sellScan_cmds_cancel {t lid lp : Nat} {m : List (Nat × Order)} {c : Command}
    (hc : c ∈ (sellScanGo t lid lp m).cmds) : ∃ i, c = Command.cancelOrder i := by
  rw [sellScanGo_cmds] at hc
  obtain ⟨p, hp, heq⟩ := List.mem_filterMap.mp hc
  split at heq
  · exact ⟨p.1, (Option.some.inj heq).symm⟩
  · cases heq

theorem buyScan_cmds_cancel {t sid sp : Nat} {m : List (Nat × Order)} {c : Command}
    (hc : c ∈ (buyScanGo t sid sp m).cmds) : ∃ i, c = Command.cancelOrder i := by
  rw [buyScanGo_cmds] at hc
  obtain ⟨p, hp, heq⟩ := List.mem_filterMap.mp hc
  split at heq
  · exact ⟨p.1, (Option.some.inj heq).symm⟩
  · cases heq

/-- Any command of the sell repricing pass is a cancel, or it is the one
insert, placed at the target price with the sizing-formula volume, and then
the position-limit guard held. -/
theorem RepriceSell_cmds {s : State} {a : Nat} {c : Command}
    (hc : c ∈ (RepriceSellOrders s a).2) :
    (∃ i, c = Command.cancelOrder i) ∨
    (c = Command.insertOrder s.mNextMessageId Side.sell
        (if a ≠ 0 then
          max ((s.mMarketMaxBid + 100) % U64) (MultiplyBasis a MARGIN_BASIS true)
         else MAXIMUM_ASK)
        (intToU64 ((s.mETFPosition + POSITION_LIMIT).tdiv MAX_ORDER_DEPTH)) ∧
     ¬(s.mETFPosition - s.mETFOrderPositionSell
         - (s.mETFPosition + POSITION_LIMIT).tdiv MAX_ORDER_DEPTH < -POSITION_LIMIT)) := by
  simp only [RepriceSellOrders] at hc
  set t : Nat := (if a ≠ 0 then
      max ((s.mMarketMaxBid + 100) % U64) (MultiplyBasis a MARGIN_BASIS true)
    else MAXIMUM_ASK) with ht
  split at hc
  case isTrue hguard =>
    dsimp only at hc
    split at hc
    · rcases List.mem_append.mp hc with hc | hc
      · exact Or.inl (sellScan_cmds_cancel hc)
      · simp only [List.mem_singleton] at hc
        exact Or.inl ⟨_, hc⟩
    · exact Or.inl (sellScan_cmds_cancel hc)
  case isFalse hguard =>
    simp only [Bool.or_eq_true, decide_eq_true_eq, beq_iff_eq, not_or] at hguard
    obtain ⟨⟨⟨hex, hpos⟩, hcnt⟩, ha0⟩ := hguard
    dsimp only at hc
    rcases List.mem_append.mp hc with hc | hc
    · split at hc
      · rcases List.mem_append.mp hc with hc | hc
        · exact Or.inl (sellScan_cmds_cancel hc)
        · simp only [List.mem_singleton] at hc
          exact Or.inl ⟨_, hc⟩
      · exact Or.inl (sellScan_cmds_cancel hc)
    · simp only [List.mem_singleton] at hc
      exact Or.inr ⟨hc, hpos⟩

/-- Mirror of `RepriceSell_cmds` for the buy pass. -/
theorem RepriceBuy_cmds {s : State} {b : Nat} {c : Command}
    (hc : c ∈ (RepriceBuyOrders s b).2) :
    (∃ i, c = Command.cancelOrder i) ∨
    (c = Command.insertOrder s.mNextMessageId Side.buy
        (if b ≠ 0 then
          min (usub s.mMarketMinAsk 100) (MultiplyBasis b (-MARGIN_BASIS) false)
         else 0)
        (intToU64 ((POSITION_LIMIT - s.mETFPosition).tdiv MAX_ORDER_DEPTH)) ∧
     ¬(s.mETFPosition + s.mETFOrderPositionBuy
         + (POSITION_LIMIT - s.mETFPosition).tdiv MAX_ORDER_DEPTH > POSITION_LIMIT)) := by
  simp only [RepriceBuyOrders] at hc
  set t : Nat := (if b ≠ 0 then
      min (usub s.mMarketMinAsk 100) (MultiplyBasis b (-MARGIN_BASIS) false)
    else 0) with ht
  split at hc
  case isTrue hguard =>
    dsimp only at hc
    split at hc
    · rcases List.mem_append.mp hc with hc | hc
      · exact Or.inl (buyScan_cmds_cancel hc)
      · simp only [List.mem_singleton] at hc
        exact Or.inl ⟨_, hc⟩
    · exact Or.inl (buyScan_cmds_cancel hc)
  case isFalse hguard =>
    simp only [Bool.or_eq_true, decide_eq_true_eq, beq_iff_eq, not_or] at hguard
    obtain ⟨⟨⟨hex, hpos⟩, hcnt⟩, hb0⟩ := hguard
    dsimp only at hc
    rcases List.mem_append.mp hc with hc | hc
    · split at hc
      · rcases List.mem_append.mp hc with hc | hc
        · exact Or.inl (buyScan_cmds_cancel hc)
        · simp only [List.mem_singleton] at hc
          exact Or.inl ⟨_, hc⟩
      · exact Or.inl (buyScan_cmds_cancel hc)
    · simp only [List.mem_singleton] at hc
      exact Or.inr ⟨hc, hpos⟩

/-- The status handler only ever emits hedge orders. -/
theorem OrderStatus_cmds_hedge {s : State} {id fill rem : Nat} {fees : Int} {c : Command}
    (hc : c ∈ (OrderStatusMessageHandler s id fill rem fees).2) :
    ∃ i sd pr v, c = Command.hedgeOrder i sd pr v := by
  cases hA : lookupOrder s.mAsks id with
  | some o =>
    rw [OrderStatus_ask_eq fill rem fees hA] at hc
    dsimp only at hc
    split at hc
    · simp only [List.mem_singleton] at hc
      exact ⟨_, _, _, _, hc⟩
    · cases hc
  | none =>
    cases hB : lookupOrder s.mBids id with
    | some o =>
      rw [OrderStatus_bid_eq fill rem fees hA hB] at hc
      dsimp only at hc
      split at hc
      · simp only [List.mem_singleton] at hc
        exact ⟨_, _, _, _, hc⟩
      · cases hc
    | none =>
      rw [OrderStatus_untracked fill rem fees hA hB] at hc
      cases hc

/-- The error handler only ever emits hedge orders. -/
theorem Error_cmds_hedge {s : State} {id : Nat} {c : Command}
    (hc : c ∈ (ErrorMessageHandler s id).2) :
    ∃ i sd pr v, c = Command.hedgeOrder i sd pr v := by
  unfold ErrorMessageHandler at hc
  split at hc
  · exact OrderStatus_cmds_hedge hc
  · cases hc

/-- Any insert emitted while handling a book event satisfies the position
guard of its side, evaluated at the pre-event state (the repricing passes do
not move the position or the opposite side's reserved volume first). -/
theorem OrderBook_insert_guard {s : State} {instr : Instrument} {seq a b : Nat}
    {id : Nat} {sd : Side} {p v : Nat}
    (hmem : Command.insertOrder id sd p v
      ∈ (OrderBookMessageHandler s instr seq a b).2) :
    (sd = Side.sell ∧
     v = intToU64 ((s.mETFPosition + POSITION_LIMIT).tdiv MAX_ORDER_DEPTH) ∧
     ¬(s.mETFPosition - s.mETFOrderPositionSell
         - (s.mETFPosition + POSITION_LIMIT).tdiv MAX_ORDER_DEPTH < -POSITION_LIMIT)) ∨
    (sd = Side.buy ∧
     v = intToU64 ((POSITION_LIMIT - s.mETFPosition).tdiv MAX_ORDER_DEPTH) ∧
     ¬(s.mETFPosition + s.mETFOrderPositionBuy
         + (POSITION_LIMIT - s.mETFPosition).tdiv MAX_ORDER_DEPTH > POSITION_LIMIT)) := by
  simp only [OrderBookMessageHandler] at hmem
  by_cases hi : instr ≠ Instrument.future
  · rw [if_pos hi] at hmem
    cases hmem
  · rw [if_neg hi] at hmem
    by_cases hseq : seq % U64 ≤ s.mOrderBookSequence
    · rw [if_pos hseq] at hmem
      cases hmem
    · rw [if_neg hseq] at hmem
      dsimp only at hmem
      rcases List.mem_append.mp hmem with hmem | hmem
      · rcases RepriceSell_cmds hmem with ⟨i, hi2⟩ | ⟨heq, hguard⟩
        · cases hi2
        · simp only [Command.insertOrder.injEq] at heq
          obtain ⟨hid2, hsd, hp2, hv2⟩ := heq
          exact Or.inl ⟨hsd, hv2, hguard⟩
      · rcases RepriceBuy_cmds hmem with ⟨i, hi2⟩ | ⟨heq, hguard⟩
        · cases hi2
        · simp only [Command.insertOrder.injEq] at heq
          obtain ⟨hid2, hsd, hp2, hv2⟩ := heq
          obtain ⟨hfA, hfP, hfS, hfC, hfQ, hfN⟩ := RepriceSell_fields
            ({ s with mOrderBookSequence := seq % U64 }) (a % U64)
          rw [hfP] at hguard hv2
          refine Or.inr ⟨hsd, hv2, ?_⟩
          have hfB : (RepriceSellOrders { s with mOrderBookSequence := seq % U64 }
              (a % U64)).1.mETFOrderPositionBuy = s.mETFOrderPositionBuy := by
            have := RepriceSell_fields ({ s with mOrderBookSequence := seq % U64 }) (a % U64)
            exact this.2.2.1
          rw [hfB] at hguard
          exact hguard

/-! ## Per-order fill accounting -/

theorem hedgeVolSum_append (l1 l2 : List Command) :
    hedgeVolSum (l1 ++ l2) = hedgeVolSum l1 + hedgeVolSum l2 := by
  induction l1 with
  | nil => simp [hedgeVolSum]
  | cons c rest ih =>
    cases c with
    | insertOrder id sd p v => simpa [hedgeVolSum] using ih
    | cancelOrder id => simpa [hedgeVolSum] using ih
    | hedgeOrder id sd p v =>
      simp only [List.cons_append, hedgeVolSum, List.append_eq, ih]
      omega

theorem hedgeVolSum_expected (isSell : Bool) : ∀ (sts : List (Nat × Nat)) (f nid : Nat),
    wfStatusList f sts = true →
    hedgeVolSum (expectedHedges isSell f nid sts) + f = finalFill f sts := by
  intro sts
  induction sts with
  | nil => intro f nid _; simp [expectedHedges, hedgeVolSum, finalFill]
  | cons st rest ih =>
    intro f nid hwf
    obtain ⟨fill, rem⟩ := st
    simp only [wfStatusList, Bool.and_eq_true, Bool.or_eq_true, decide_eq_true_eq] at hwf
    obtain ⟨⟨⟨⟨hmono, hfU⟩, hrU⟩, hterm⟩, hrest⟩ := hwf
    have hihr := ih fill (nid + 1) hrest
    have hihr2 := ih fill nid hrest
    by_cases hlt : f < fill
    · simp only [expectedHedges, if_pos hlt, hedgeVolSum, finalFill]
      omega
    · simp only [expectedHedges, if_neg hlt, finalFill]
      have : fill = f := by omega
      subst this
      omega

/-- Core induction for claim C2: delivering a well-formed status list for one
tracked order produces exactly the prescribed hedge orders. -/
theorem processStatuses_eq_expected (isSell : Bool) : ∀ (sts : List (Nat × Nat))
    (s : State) (id : Nat) (o : Order),
    (keysOf s.mAsks).Nodup → (keysOf s.mBids).Nodup →
    (if isSell then lookupOrder s.mAsks id = some o
     else lookupOrder s.mAsks id = none ∧ lookupOrder s.mBids id = some o) →
    wfStatusList o.filledVolume sts = true →
    (processStatuses s id sts).2
      = expectedHedges isSell o.filledVolume s.mNextMessageId sts := by
  intro sts
  induction sts with
  | nil =>
    intro s id o _ _ _ _
    rfl
  | cons st rest ih =>
    intro s id o hna hnb htr hwf
    obtain ⟨fill, rem⟩ := st
    simp only [wfStatusList, Bool.and_eq_true, Bool.or_eq_true, decide_eq_true_eq] at hwf
    obtain ⟨⟨⟨⟨hmono, hfU⟩, hrU⟩, hterm⟩, hrest⟩ := hwf
    have hfill : fill % U64 = fill := Nat.mod_eq_of_lt hfU
    have hdF : usub (fill % U64) o.filledVolume = fill - o.filledVolume := by
      rw [hfill]
      exact usub_of_le hmono hfU
    have hdpos : (usub (fill % U64) o.filledVolume > 0) ↔ (o.filledVolume < fill) := by
      rw [hdF]
      omega
    simp only [processStatuses]
    cases isSell with
    | true =>
      simp only [if_true] at htr
      by_cases hrem : rem % U64 > 0
      · have hih := ih (OrderStatusMessageHandler s id fill rem 0).1 id
          { o with remainingVolume := rem % U64, filledVolume := fill % U64 }
          (by rw [OrderStatus_ask_eq fill rem 0 htr]
              (try dsimp only)
              rw [if_pos hrem, keysOf_setOrder]
              exact hna)
          (by rw [OrderStatus_ask_eq fill rem 0 htr]
              (try dsimp only)
              exact hnb)
          (by rw [if_pos rfl, OrderStatus_ask_eq fill rem 0 htr]
              (try dsimp only)
              rw [if_pos hrem]
              exact lookupOrder_setOrder_self (by rw [htr]; rfl))
          (by (try dsimp only)
              rw [hfill]
              exact hrest)
        rw [hih]
        dsimp only
        rw [OrderStatus_ask_eq fill rem 0 htr]
        dsimp only
        rw [hfill]
        by_cases hd : usub fill o.filledVolume > 0
        · rw [if_pos hd]
          have hlt : o.filledVolume < fill := by
            rw [← hfill] at hd
            exact hdpos.mp hd
          rw [← hfill] at hd
          simp only [expectedHedges, if_pos hlt, hdF, hfill, List.singleton_append]
          rw [hfill] at hdF
          rw [hdF]
          simp [hd, hlt]
        · rw [if_neg hd]
          have hlt : ¬(o.filledVolume < fill) := by
            rw [← hfill] at hd
            exact fun hc => hd (hdpos.mpr hc)
          simp only [expectedHedges, if_neg hlt, List.nil_append]
          simp [hd, hlt]
      · have hrest0 : rest = [] := by
          cases rest with
          | nil => rfl
          | cons st2 rest2 =>
            exfalso
            rcases hterm with hterm | hterm
            · have : rem % U64 = rem := Nat.mod_eq_of_lt hrU
              omega
            · simp at hterm
        subst hrest0
        rw [OrderStatus_ask_eq fill rem 0 htr]
        dsimp only
        simp only [processStatuses, List.append_nil]
        rw [hfill]
        by_cases hd : usub fill o.filledVolume > 0
        · rw [if_pos hd]
          have hlt : o.filledVolume < fill := by
            rw [← hfill] at hd
            exact hdpos.mp hd
          rw [← hfill] at hd
          simp only [expectedHedges, if_pos hlt]
          rw [hfill] at hdF
          rw [hdF]
          simp [hd, hlt]
        · rw [if_neg hd]
          have hlt : ¬(o.filledVolume < fill) := by
            rw [← hfill] at hd
            exact fun hc => hd (hdpos.mpr hc)
          simp only [expectedHedges, if_neg hlt]
    | false =>
      simp only [if_false, Bool.false_eq_true] at htr
      obtain ⟨htrA, htrB⟩ := htr
      by_cases hrem : rem % U64 > 0
      · have hih := ih (OrderStatusMessageHandler s id fill rem 0).1 id
          { o with remainingVolume := rem % U64, filledVolume := fill % U64 }
          (by rw [OrderStatus_bid_eq fill rem 0 htrA htrB]
              (try dsimp only)
              exact hna)
          (by rw [OrderStatus_bid_eq fill rem 0 htrA htrB]
              (try dsimp only)
              rw [if_pos hrem, keysOf_setOrder]
              exact hnb)
          (by rw [if_neg (by simp : ¬(false = true)), OrderStatus_bid_eq fill rem 0 htrA htrB]
              (try dsimp only)
              rw [if_pos hrem]
              exact ⟨htrA, lookupOrder_setOrder_self (by rw [htrB]; rfl)⟩)
          (by (try dsimp only)
              rw [hfill]
              exact hrest)
        rw [hih]
        dsimp only
        rw [OrderStatus_bid_eq fill rem 0 htrA htrB]
        dsimp only
        rw [hfill]
        by_cases hd : usub fill o.filledVolume > 0
        · rw [if_pos hd]
          have hlt : o.filledVolume < fill := by
            rw [← hfill] at hd
            exact hdpos.mp hd
          rw [← hfill] at hd
          simp only [expectedHedges, if_pos hlt, List.singleton_append]
          rw [hfill] at hdF
          rw [hdF]
          simp [hd, hlt]
        · rw [if_neg hd]
          have hlt : ¬(o.filledVolume < fill) := by
            rw [← hfill] at hd
            exact fun hc => hd (hdpos.mpr hc)
          simp only [expectedHedges, if_neg hlt, List.nil_append]
          simp [hd, hlt]
      · have hrest0 : rest = [] := by
          cases rest with
          | nil => rfl
          | cons st2 rest2 =>
            exfalso
            rcases hterm with hterm | hterm
            · have : rem % U64 = rem := Nat.mod_eq_of_lt hrU
              omega
            · simp at hterm
        subst hrest0
        rw [OrderStatus_bid_eq fill rem 0 htrA htrB]
        dsimp only
        simp only [processStatuses, List.append_nil]
        rw [hfill]
        by_cases hd : usub fill o.filledVolume > 0
        · rw [if_pos hd]
          have hlt : o.filledVolume < fill := by
            rw [← hfill] at hd
            exact hdpos.mp hd
          rw [← hfill] at hd
          simp only [expectedHedges, if_pos hlt]
          rw [hfill] at hdF
          rw [hdF]
          simp [hd, hlt]
        · rw [if_neg hd]
          have hlt : ¬(o.filledVolume < fill) := by
            rw [← hfill] at hd
            exact fun hc => hd (hdpos.mpr hc)
          simp only [expectedHedges, if_neg hlt]

/-! ## Claim theorems -/

set_option maxRecDepth 4000

/-- Claim C1, counterexample.  The claim's well-formedness hypothesis
(statuses report monotonically non-decreasing `filledVolume` and never more
fill than the order's volume; `traceC1` contains no error events) does not
prevent the position from leaving `[-POSITION_LIMIT, POSITION_LIMIT]`: by
under-reporting `remainingVolume` (1 lot) before the orders fill completely,
`mETFOrderPositionSell` stops covering the fillable volume and six sell
orders of 20+20+20+20+20+16 lots all fill, driving `mETFPosition` to −116. -/
theorem claimC1_counterexample :
    claimWfC1 initState [] traceC1 = true ∧
    (runEvents initState traceC1).mETFPosition = -116 ∧
    100 < (runEvents initState traceC1).mETFPosition.natAbs := by
  refine ⟨by decide, by decide, by decide⟩

/-- Claim C1, amended: under strictly in-order, well-formed event delivery —
where, in addition to the claim's conditions, each status report's
`filledVolume + remainingVolume` never exceeds the order's recorded
`filledVolume + remainingVolume` (fills consume remaining volume), and error
events only reference orders with no recorded fill (see claim C6 for the
fill-carrying error path) — every reachable state satisfies
`|netPosition| ≤ POSITION_LIMIT`, and whenever a repricing pass emits a sell
insert the guard `netPosition - reservedSellVolume - orderVolume ≥
-POSITION_LIMIT` held at emission, mirrored for buy inserts. -/
theorem claimC1_amended (es : List Event) (h : wfTrace initState es = true) :
    (runEvents initState es).mETFPosition.natAbs ≤ 100 ∧
    (∀ e id p v, Command.insertOrder id Side.sell p v
        ∈ (step (runEvents initState es) e).2 →
      -POSITION_LIMIT ≤ (runEvents initState es).mETFPosition
        - (runEvents initState es).mETFOrderPositionSell - (v : Int)) ∧
    (∀ e id p v, Command.insertOrder id Side.buy p v
        ∈ (step (runEvents initState es) e).2 →
      (runEvents initState es).mETFPosition
        + (runEvents initState es).mETFOrderPositionBuy + (v : Int) ≤ POSITION_LIMIT) := by
  have hinv := runEvents_invPos es initState initState_invPos h
  obtain ⟨hc, hrs, hrb, h3, h4, hba, hbb⟩ := hinv
  have hPL : POSITION_LIMIT = (100 : Int) := rfl
  have hMD : MAX_ORDER_DEPTH = (5 : Int) := rfl
  have hSnn : (0 : Int) ≤ (sumRemaining (runEvents initState es).mAsks : Int) :=
    Int.ofNat_nonneg _
  have hBnn : (0 : Int) ≤ (sumRemaining (runEvents initState es).mBids : Int) :=
    Int.ofNat_nonneg _
  have htdS : ((runEvents initState es).mETFPosition + POSITION_LIMIT).tdiv MAX_ORDER_DEPTH
      = ((runEvents initState es).mETFPosition + 100) / 5 := by
    rw [hPL, hMD, Int.tdiv_eq_ediv (by omega) (by norm_num)]
  have htdB : (POSITION_LIMIT - (runEvents initState es).mETFPosition).tdiv MAX_ORDER_DEPTH
      = (100 - (runEvents initState es).mETFPosition) / 5 := by
    rw [hPL, hMD, Int.tdiv_eq_ediv (by omega) (by norm_num)]
  refine ⟨by omega, ?_, ?_⟩
  · intro e id p v hmem
    cases e with
    | orderBook instr seq a b =>
      rcases OrderBook_insert_guard hmem with ⟨_, hv, hguard⟩ | ⟨hsd, _, _⟩
      · have hcast : (v : Int)
            = ((runEvents initState es).mETFPosition + POSITION_LIMIT).tdiv MAX_ORDER_DEPTH := by
          rw [hv]
          exact intToU64_cast (by omega) (by omega)
        omega
      · exact absurd hsd (by decide)
    | orderStatus id2 fill rem fees =>
      simp only [step] at hmem
      obtain ⟨i, sd2, pr, v2, heq⟩ := OrderStatus_cmds_hedge hmem
      simp at heq
    | orderError id2 =>
      simp only [step] at hmem
      obtain ⟨i, sd2, pr, v2, heq⟩ := Error_cmds_hedge hmem
      simp at heq
    | tradeTicks =>
      simp [step] at hmem
    | hedgeFilled =>
      simp [step] at hmem
  · intro e id p v hmem
    cases e with
    | orderBook instr seq a b =>
      rcases OrderBook_insert_guard hmem with ⟨hsd, _, _⟩ | ⟨_, hv, hguard⟩
      · exact absurd hsd (by decide)
      · have hcast : (v : Int)
            = (POSITION_LIMIT - (runEvents initState es).mETFPosition).tdiv MAX_ORDER_DEPTH := by
          rw [hv]
          exact intToU64_cast (by omega) (by omega)
        omega
    | orderStatus id2 fill rem fees =>
      simp only [step] at hmem
      obtain ⟨i, sd2, pr, v2, heq⟩ := OrderStatus_cmds_hedge hmem
      simp at heq
    | orderError id2 =>
      simp only [step] at hmem
      obtain ⟨i, sd2, pr, v2, heq⟩ := Error_cmds_hedge hmem
      simp at heq
    | tradeTicks =>
      simp [step] at hmem
    | hedgeFilled =>
      simp [step] at hmem

/-- Witness for `claimC1_amended` at the one-event trace of a fresh futures
book: the hypothesis is discharged by evaluation and the position bound
follows from the theorem. -/
theorem claimC1_amended_witness :
    wfTrace initState [Event.orderBook Instrument.future 1 10000 9000] = true ∧
    (runEvents initState
        [Event.orderBook Instrument.future 1 10000 9000]).mETFPosition.natAbs ≤ 100 :=
  ⟨by decide,
   (claimC1_amended [Event.orderBook Instrument.future 1 10000 9000] (by decide)).1⟩

/-- Claim C2: for one tracked order (of either side, with no recorded fill)
and a well-formed sequence of status reports on it — fills monotonically
non-decreasing, reports fitting the wire type, only the last report terminal —
the emitted commands are exactly one hedge order per strict fill increase,
each on the side opposite the order, priced at the extreme tick
(`MAX_ASK_NEAREST_TICK` covering a sell fill, `MIN_BID_NEARST_TICK` covering a
buy fill) and sized exactly the incremental fill (`expectedHedges`), and the
sum of their volumes equals the order's final `filledVolume`. -/
theorem claimC2 (isSell : Bool) (s : State) (id : Nat) (o : Order)
    (sts : List (Nat × Nat))
    (hna : (keysOf s.mAsks).Nodup) (hnb : (keysOf s.mBids).Nodup)
    (htr : if isSell then lookupOrder s.mAsks id = some o
           else lookupOrder s.mAsks id = none ∧ lookupOrder s.mBids id = some o)
    (hf0 : o.filledVolume = 0)
    (hwf : wfStatusList o.filledVolume sts = true) :
    (processStatuses s id sts).2 = expectedHedges isSell 0 s.mNextMessageId sts ∧
    hedgeVolSum (processStatuses s id sts).2 = finalFill 0 sts := by
  have h1 := processStatuses_eq_expected isSell sts s id o hna hnb htr hwf
  rw [hf0] at h1
  refine ⟨h1, ?_⟩
  rw [h1]
  have h2 := hedgeVolSum_expected isSell sts 0 s.mNextMessageId (by rw [← hf0]; exact hwf)
  omega

/-- Witness for `claimC2`: the spec's scenario — an order first partially
filled for 4 lots, then fully filled with 10 lots total — produces hedge
orders of 4 and 6 lots (the second is the `deltaFilled = 6` hedge), summing
to the final fill of 10. -/
theorem claimC2_witness :
    wfStatusList 0 [(4, 6), (10, 0)] = true ∧
    ((processStatuses stateC2 1 [(4, 6), (10, 0)]).2
        = expectedHedges true 0 stateC2.mNextMessageId [(4, 6), (10, 0)] ∧
     hedgeVolSum (processStatuses stateC2 1 [(4, 6), (10, 0)]).2
        = finalFill 0 [(4, 6), (10, 0)]) :=
  ⟨by decide,
   claimC2 true stateC2 1
     { price := 10100, remainingVolume := 10, filledVolume := 0, cancelling := false }
     [(4, 6), (10, 0)] (by decide) (by decide) (by decide) (by decide) (by decide)⟩

/-- Claim C3, counterexample.  The quoted instrument is the ETF (the
instrument whose orders the engine tracks; the futures are the hedge leg), but
a book update for the ETF is never sequence-checked: with `sequenceNumber = 0
≤ lastBookSequence = 0` the handler still overwrites `mMarketMaxBid`, so the
handler is not a no-op as the claim states. -/
theorem claimC3_counterexample :
    (0 : Nat) ≤ initState.mOrderBookSequence ∧
    initState.mMarketMaxBid = 0 ∧
    (OrderBookMessageHandler initState Instrument.etf 0 10000 9900).1.mMarketMaxBid
      = 9900 := by
  refine ⟨by decide, by decide, by decide⟩

/-- Claim C3, amended: the stale-sequence guard protects the *futures* book —
the book that drives the repricing pass — not the ETF book.  A futures book
update whose sequence number does not exceed `mOrderBookSequence` changes no
state field and emits no command. -/
theorem claimC3_amended (s : State) (seq a b : Nat)
    (h : seq ≤ s.mOrderBookSequence) :
    OrderBookMessageHandler s Instrument.future seq a b = (s, []) := by
  simp only [OrderBookMessageHandler]
  rw [if_neg (by simp : ¬(Instrument.future ≠ Instrument.future)),
    if_pos (le_trans (Nat.mod_le _ _) h)]

/-- Witness for `claimC3_amended` on the fresh session (sequence 0 ≤ 0). -/
theorem claimC3_witness :
    (0 : Nat) ≤ initState.mOrderBookSequence ∧
    OrderBookMessageHandler initState Instrument.future 0 10000 9900
      = (initState, []) :=
  ⟨by decide, claimC3_amended initState 0 10000 9900 (by decide)⟩

/-- Claim C4, counterexample.  A book update for the futures — the hedge
instrument — does *not* merely record best quotes and return: it consumes the
sequence number, leaves `mMarketMaxBid` unrecorded, runs the repricing pass
and here emits a buy insert. -/
theorem claimC4_counterexample :
    (OrderBookMessageHandler initState Instrument.future 1 0 777).1.mOrderBookSequence
      = 1 ∧
    (OrderBookMessageHandler initState Instrument.future 1 0 777).1.mMarketMaxBid = 0 ∧
    (OrderBookMessageHandler initState Instrument.future 1 0 777).2
      = [Command.insertOrder 1 Side.buy 700 20] := by
  refine ⟨by decide, by decide, by decide⟩

/-- Claim C4, amended: it is the *ETF* (non-futures) book update that records
the market best bid and best ask — the best ask defaulting to the maximum
representable price when the top ask level is zero — and returns with no
further effect: no command is emitted and no other state field changes. -/
theorem claimC4_amended (s : State) (instr : Instrument) (seq a b : Nat)
    (hi : instr ≠ Instrument.future) (ha : a < U64) (hb : b < U64) :
    OrderBookMessageHandler s instr seq a b =
      ({ s with mMarketMaxBid := b,
                mMarketMinAsk := if a ≠ 0 then a else MAXIMUM_ASK }, []) := by
  simp only [OrderBookMessageHandler]
  rw [Nat.mod_eq_of_lt ha, Nat.mod_eq_of_lt hb, if_pos hi]

/-- Witness for `claimC4_amended` at an ETF book update. -/
theorem claimC4_witness :
    (Instrument.etf ≠ Instrument.future ∧ (10000 : Nat) < U64 ∧ (9900 : Nat) < U64) ∧
    OrderBookMessageHandler initState Instrument.etf 7 10000 9900 =
      ({ initState with mMarketMaxBid := 9900, mMarketMinAsk := 10000 }, []) :=
  ⟨⟨by decide, by decide, by decide⟩, by
    rw [claimC4_amended initState Instrument.etf 7 10000 9900 (by decide) (by decide)
      (by decide)]
    rfl⟩

/-- Claim C5, counterexample.  With the ETF best bid recorded at 9900 and a
fresh futures book whose top ask is 10000, the sell-side target is
`max(9900 + 100, MultiplyBasis 10000 7) = max(10000, 10000) = 10000`, not
10007: `MultiplyBasis` ignores its `ceil` flag and truncates
`10000 * 1.0007` *down* to the 100-cent tick.  The insert is emitted at
10000, not 10007 as claimed. -/
theorem claimC5_counterexample :
    MultiplyBasis 10000 MARGIN_BASIS true = 10000 ∧
    (OrderBookMessageHandler (OrderBookMessageHandler initState Instrument.etf 0 0 9900).1
        Instrument.future 1 10000 0).2
      = [Command.insertOrder 1 Side.sell 10000 20] := by
  refine ⟨by decide, by decide⟩

/-- Claim C5, amended: in the scenario with the recorded market best bid 9900,
futures top ask 10000 and margin 7 basis points, the sell-side target price is
`max(9900 + one tick, MultiplyBasis 10000 7) = 10000` (the margin leg rounds
*down* to a tick), and with no resting sell orders the repricing pass emits a
new sell insert at 10000 with the sizing-formula volume 20. -/
theorem claimC5_amended (s : State) (h1 : s.mMarketMaxBid = 9900) (h2 : s.mAsks = [])
    (h3 : s.mETFPosition = 0) (h4 : s.mETFOrderPositionSell = 0)
    (h5 : s.mETFOrderAskCount = 0) :
    max ((s.mMarketMaxBid + 100) % U64) (MultiplyBasis 10000 MARGIN_BASIS true) = 10000 ∧
    (RepriceSellOrders s 10000).2
      = [Command.insertOrder s.mNextMessageId Side.sell 10000 20] := by
  have hmax : max ((9900 + 100) % U64) (MultiplyBasis 10000 MARGIN_BASIS true)
      = 10000 := by decide
  have hvol : ((0 : Int) + POSITION_LIMIT).tdiv MAX_ORDER_DEPTH = 20 := by decide
  have hv20 : intToU64 20 = 20 := by decide
  refine ⟨by rw [h1]; exact hmax, ?_⟩
  simp only [RepriceSellOrders, h1, h2, h3, h4, h5]
  rw [if_pos (by decide : (10000 : Nat) ≠ 0), hmax]
  simp only [sellScanGo, hvol, hv20]
  norm_num
  split
  case isTrue hcond => exact absurd hcond (by decide)
  case isFalse hcond => rfl

/-- Witness for `claimC5_amended` at the concrete session `stateC5`. -/
theorem claimC5_witness :
    (stateC5.mMarketMaxBid = 9900 ∧ stateC5.mAsks = [] ∧ stateC5.mETFPosition = 0 ∧
     stateC5.mETFOrderPositionSell = 0 ∧ stateC5.mETFOrderAskCount = 0) ∧
    (RepriceSellOrders stateC5 10000).2
      = [Command.insertOrder stateC5.mNextMessageId Side.sell 10000 20] :=
  ⟨⟨by decide, by decide, by decide, by decide, by decide⟩,
   (claimC5_amended stateC5 (by decide) (by decide) (by decide) (by decide) (by decide)).2⟩

/-- Claim C6 (code bug).  The claim — and the source's own `if (dFilled > 0)`
check and its comment about staying correctly hedged — intend an error on a
tracked order to leave the net position alone and hedge nothing, since the
synthesized status carries zero fill.  But `dFilled` is `unsigned long`:
`0 - order.filledVolume` underflows for any recorded fill (here 4 lots), so
the code *does* take the hedge branch, moves `mETFPosition` from −4 back to 0
(undoing the already-hedged fills) and emits a hedge order of the absurd
volume `2^64 - 4`.  The order removal and counter release still happen. -/
theorem claimC6_code_bug :
    stateC6.mETFPosition = -4 ∧
    (ErrorMessageHandler stateC6 1).2
      = [Command.hedgeOrder 2 Side.buy 2147483600 18446744073709551612] ∧
    (ErrorMessageHandler stateC6 1).1.mETFPosition = 0 ∧
    lookupOrder (ErrorMessageHandler stateC6 1).1.mAsks 1 = none ∧
    (ErrorMessageHandler stateC6 1).1.mETFOrderAskCount = 0 := by
  refine ⟨by decide, by decide, by decide, by decide, by decide⟩

/-- Claim C7: a status update reporting `remainingVolume = 0` for a tracked
order (tracked on exactly one side, per the data-model invariant) leaves the
order id absent from both side mappings and decrements that side's order
count by exactly one, leaving the other side's count unchanged. -/
theorem claimC7 (s : State) (id fill : Nat) (fees : Int)
    (htr : containsOrder s.mAsks id = true ∨ containsOrder s.mBids id = true)
    (hone : containsOrder s.mAsks id = false ∨ containsOrder s.mBids id = false) :
    lookupOrder (OrderStatusMessageHandler s id fill 0 fees).1.mAsks id = none ∧
    lookupOrder (OrderStatusMessageHandler s id fill 0 fees).1.mBids id = none ∧
    (containsOrder s.mAsks id = true →
      (OrderStatusMessageHandler s id fill 0 fees).1.mETFOrderAskCount
          = s.mETFOrderAskCount - 1 ∧
      (OrderStatusMessageHandler s id fill 0 fees).1.mETFOrderBidCount
          = s.mETFOrderBidCount) ∧
    (containsOrder s.mAsks id = false →
      (OrderStatusMessageHandler s id fill 0 fees).1.mETFOrderBidCount
          = s.mETFOrderBidCount - 1 ∧
      (OrderStatusMessageHandler s id fill 0 fees).1.mETFOrderAskCount
          = s.mETFOrderAskCount) := by
  cases hA : lookupOrder s.mAsks id with
  | some o =>
    have hA' : containsOrder s.mAsks id = true := by
      simp [containsOrder, hA]
    have hB : lookupOrder s.mBids id = none := by
      rcases hone with hone | hone
      · rw [hA'] at hone
        cases hone
      · cases hl : lookupOrder s.mBids id with
        | none => rfl
        | some o2 =>
          rw [containsOrder, hl] at hone
          cases hone
    rw [OrderStatus_ask_eq fill 0 fees hA]
    simp only [if_neg (by decide : ¬((0 : Nat) % U64 > 0))]
    refine ⟨?_, ?_, ?_, ?_⟩
    · dsimp only
      exact lookupOrder_eraseOrder_self _ _
    · dsimp only
      exact hB
    · intro _
      exact ⟨by trivial, by trivial⟩
    · intro hc
      rw [hA'] at hc
      cases hc
  | none =>
    have hA' : containsOrder s.mAsks id = false := by
      simp [containsOrder, hA]
    cases hB : lookupOrder s.mBids id with
    | some o =>
      rw [OrderStatus_bid_eq fill 0 fees hA hB]
      simp only [if_neg (by decide : ¬((0 : Nat) % U64 > 0))]
      refine ⟨?_, ?_, ?_, ?_⟩
      · dsimp only
        exact hA
      · dsimp only
        exact lookupOrder_eraseOrder_self _ _
      · intro hc
        rw [hA'] at hc
        cases hc
      · intro _
        exact ⟨by trivial, by trivial⟩
    | none =>
      exfalso
      rcases htr with htr | htr
      · rw [hA'] at htr
        cases htr
      · rw [containsOrder, hB] at htr
        cases htr

/-- Witness for `claimC7` at `stateC6` (one tracked ask, id 1). -/
theorem claimC7_witness :
    (containsOrder stateC6.mAsks 1 = true ∨ containsOrder stateC6.mBids 1 = true) ∧
    (containsOrder stateC6.mAsks 1 = false ∨ containsOrder stateC6.mBids 1 = false) ∧
    (lookupOrder (OrderStatusMessageHandler stateC6 1 10 0 0).1.mAsks 1 = none ∧
     lookupOrder (OrderStatusMessageHandler stateC6 1 10 0 0).1.mBids 1 = none ∧
     (containsOrder stateC6.mAsks 1 = true →
       (OrderStatusMessageHandler stateC6 1 10 0 0).1.mETFOrderAskCount
           = stateC6.mETFOrderAskCount - 1 ∧
       (OrderStatusMessageHandler stateC6 1 10 0 0).1.mETFOrderBidCount
           = stateC6.mETFOrderBidCount) ∧
     (containsOrder stateC6.mAsks 1 = false →
       (OrderStatusMessageHandler stateC6 1 10 0 0).1.mETFOrderBidCount
           = stateC6.mETFOrderBidCount - 1 ∧
       (OrderStatusMessageHandler stateC6 1 10 0 0).1.mETFOrderAskCount
           = stateC6.mETFOrderAskCount)) :=
  ⟨Or.inl (by decide), Or.inr (by decide),
   claimC7 stateC6 1 10 0 (Or.inl (by decide)) (Or.inr (by decide))⟩

/-- Claim C8: in the reconciliation loop of a repricing pass, every
non-cancelling sell order priced strictly below the target receives exactly
one cancel and is flagged `cancelling`, and no non-cancelling sell order at or
above the target is cancelled by the loop (it is only a keep or
depth-eviction candidate); mirrored on the buy side for prices strictly above
the target bid.  Stated as exact characterizations of the loop's output. -/
theorem claimC8 (t : Nat) (m : List (Nat × Order)) (lid lp sid sp : Nat) :
    ((sellScanGo t lid lp m).cmds
        = m.filterMap (fun p => if p.2.cancelling = false ∧ p.2.price < t
                                then some (Command.cancelOrder p.1) else none) ∧
     (sellScanGo t lid lp m).mAsks
        = m.map (fun p => if p.2.cancelling = false ∧ p.2.price < t
                          then (p.1, { p.2 with cancelling := true }) else p)) ∧
    ((buyScanGo t sid sp m).cmds
        = m.filterMap (fun p => if p.2.cancelling = false ∧ t < p.2.price
                                then some (Command.cancelOrder p.1) else none) ∧
     (buyScanGo t sid sp m).mBids
        = m.map (fun p => if p.2.cancelling = false ∧ t < p.2.price
                          then (p.1, { p.2 with cancelling := true }) else p)) :=
  ⟨⟨sellScanGo_cmds t m lid lp, sellScanGo_mAsks t m lid lp⟩,
   ⟨buyScanGo_cmds t m sid sp, buyScanGo_mBids t m sid sp⟩⟩

/-- Claim C9, counterexample.  After a sell order is flagged `cancelling` by a
repricing pass (but not yet terminated), `mETFOrderAskCount` still counts it:
the count is 2 while only one tracked ask is non-cancelling, so the counters
do not count *non-cancelling* orders as claimed. -/
theorem claimC9_counterexample :
    (runEvents initState traceC9).mETFOrderAskCount = 2 ∧
    ((runEvents initState traceC9).mAsks.filter (fun p => !p.2.cancelling)).length
      = 1 := by
  refine ⟨by decide, by decide⟩

/-- Claim C9, amended: at every reachable state — under arbitrary event
delivery, well formed or not — `mETFOrderAskCount` equals the number of *all*
tracked ask orders (cancelling ones included), `mETFOrderBidCount` likewise
for bids, and each count is at most `MAX_ORDER_DEPTH`. -/
theorem claimC9_amended (es : List Event) :
    (runEvents initState es).mETFOrderAskCount
      = ((runEvents initState es).mAsks.length : Int) ∧
    (runEvents initState es).mETFOrderBidCount
      = ((runEvents initState es).mBids.length : Int) ∧
    (runEvents initState es).mETFOrderAskCount ≤ MAX_ORDER_DEPTH ∧
    (runEvents initState es).mETFOrderBidCount ≤ MAX_ORDER_DEPTH := by
  have h := runEvents_invCount es initState initState_invCount
  exact ⟨h.1, h.2.1, h.2.2.1, h.2.2.2.1⟩

/-- Claim C10: a status event or an error event naming an order id tracked on
neither side leaves the state unchanged and emits no command (the handlers
are total functions, so they cannot raise). -/
theorem claimC10 (s : State) (id fill rem : Nat) (fees : Int)
    (hA : lookupOrder s.mAsks id = none) (hB : lookupOrder s.mBids id = none) :
    OrderStatusMessageHandler s id fill rem fees = (s, []) ∧
    ErrorMessageHandler s id = (s, []) := by
  refine ⟨OrderStatus_untracked fill rem fees hA hB, ?_⟩
  simp [ErrorMessageHandler, containsOrder, hA, hB]

/-- Witness for `claimC10` on the fresh session with the untracked id 42. -/
theorem claimC10_witness :
    lookupOrder initState.mAsks 42 = none ∧ lookupOrder initState.mBids 42 = none ∧
    (OrderStatusMessageHandler initState 42 3 7 0 = (initState, []) ∧
     ErrorMessageHandler initState 42 = (initState, [])) :=
  ⟨by decide, by decide, claimC10 initState 42 3 7 0 (by decide) (by decide)⟩

end AutoTrader
